import Mathlib

/-!
# Lifecycle orchestrator of `iservices` (services.go, types.go)

Shallow embedding of `initAndStartImpl` and `stopAndFinitImpl`, followed by
the resolver of package godif and the lifecycle of package services, whose
implementation files are absent and which are modelled from the specification.

* A service is a handle of type `S`; the four methods of the Go interface
  `IService` are dispatched through a record of functions.  Whatever mutable
  memory the services own (the fields behind the `*myService` pointers, for
  instance) is one value of type `W`, passed to and returned by every hook.
* The package variables `inited` and `started` are fields of `Tracking`,
  together with the log of hook calls made so far and the services' memory.
* `Services` (declared outside services.go) is a parameter.
* A Go `error` is `Option Err`: `none` is `nil`.
* The goroutines spawned by `stopAndFinitImpl` run their `Stop` calls in an
  order chosen by the scheduler; the choice is the parameter `sched`, each
  `Stop` call being taken as one atomic step. Statements about the memory
  after the Stops are made for lists of distinct services, where no two
  goroutines work on the same service.
-/

namespace Godif

/-! ## types.go -/

/-- The four methods of the interface `IService`. -/
inductive Hook where
  | Init
  | Start
  | Stop
  | Finit
  deriving DecidableEq

/-- One hook invocation: the method, the receiver and the context argument. -/
structure Call (S Ctx : Type) where
  hook : Hook
  service : S
  ctx : Ctx
  deriving DecidableEq

/-- The method and the receiver of a call, the context argument forgotten. -/
def Call.sig {S Ctx : Type} (e : Call S Ctx) : Hook × S := (e.hook, e.service)

/-- What `Init(ctx) (newCtx, err)` returns, and the services' memory afterwards. -/
structure InitResult (Ctx Err W : Type) where
  newCtx : Ctx
  err : Option Err
  world : W

/-- What `Start(ctx) error` returns, and the services' memory afterwards. -/
structure StartResult (Err W : Type) where
  err : Option Err
  world : W

/-- The interface `IService`: method dispatch for receivers of type `S`. -/
structure IService (S Ctx Err W : Type) where
  Init : S → Ctx → W → InitResult Ctx Err W
  Start : S → Ctx → W → StartResult Err W
  Stop : S → Ctx → W → W
  Finit : S → Ctx → W → W

/-! ## services.go -/

/-- The package state: `var inited`, `var started`, the hook calls made so far
(oldest first) and the memory of the services. -/
structure Tracking (S Ctx W : Type) where
  inited : List S
  started : List S
  calls : List (Call S Ctx)
  world : W

/-- The state at package initialisation: `inited = []IService{}`,
`started = []IService{}`, no call made yet. -/
def Tracking.fresh {S Ctx W : Type} (w : W) : Tracking S Ctx W :=
  { inited := [], started := [], calls := [], world := w }

/-- The pair `(newCtx, err)` returned by `initAndStartImpl`, with the package
state it leaves. -/
structure Outcome (S Ctx Err W : Type) where
  newCtx : Ctx
  err : Option Err
  state : Tracking S Ctx W

/-- First loop of `initAndStartImpl` (lines 21-27), over the remaining services. -/
def initLoop {S Ctx Err W : Type} (svc : IService S Ctx Err W) :
    List S → Ctx → Tracking S Ctx W → Outcome S Ctx Err W
  | [], newCtx, st => { newCtx := newCtx, err := none, state := st }
  | service :: rest, newCtx, st =>
    let r := svc.Init service newCtx st.world
    let st1 : Tracking S Ctx W :=
      { st with calls := st.calls ++ [{ hook := Hook.Init, service := service, ctx := newCtx }],
                world := r.world }
    match r.err with
    | some e => { newCtx := r.newCtx, err := some e, state := st1 }
    | none => initLoop svc rest r.newCtx { st1 with inited := st1.inited ++ [service] }

/-- Second loop of `initAndStartImpl` (lines 29-36), over the remaining services. -/
def startLoop {S Ctx Err W : Type} (svc : IService S Ctx Err W) :
    List S → Ctx → Tracking S Ctx W → Outcome S Ctx Err W
  | [], newCtx, st => { newCtx := newCtx, err := none, state := st }
  | service :: rest, newCtx, st =>
    let r := svc.Start service newCtx st.world
    let st1 : Tracking S Ctx W :=
      { st with calls := st.calls ++ [{ hook := Hook.Start, service := service, ctx := newCtx }],
                world := r.world }
    match r.err with
    | some e => { newCtx := newCtx, err := some e, state := st1 }
    | none => startLoop svc rest newCtx { st1 with started := st1.started ++ [service] }

/-- The function `initAndStartImpl(ctx)`, bound to `InitAndStart`. -/
def initAndStartImpl {S Ctx Err W : Type} (svc : IService S Ctx Err W)
    (Services : List S) (ctx : Ctx) (st : Tracking S Ctx W) : Outcome S Ctx Err W :=
  let r := initLoop svc Services ctx st
  match r.err with
  | some e => { newCtx := r.newCtx, err := some e, state := r.state }
  | none => startLoop svc Services r.newCtx r.state

/-- The order in which the scheduler runs the pending goroutines: at each step
it picks the pending one at position `sched.head % pending.length` (position 0
once `sched` is used up). The first argument bounds the number of steps. -/
def stopOrderAux {S : Type} : Nat → List Nat → List S → List S
  | 0, _, _ => []
  | _ + 1, _, [] => []
  | fuel + 1, sched, p :: ps =>
    let i := sched.headD 0 % (p :: ps).length
    (p :: ps).getD i p :: stopOrderAux fuel sched.tail ((p :: ps).eraseIdx i)

/-- The order in which the goroutines of lines 43-50 run, one per element of
`started`. -/
def stopOrder {S : Type} (sched : List Nat) (pending : List S) : List S :=
  stopOrderAux pending.length sched pending

/-- The `Stop` calls of lines 43-51, in the order they run, each taken as one
atomic step. The call log is the same for every interleaving of the
goroutines; the memory is the one the goroutines leave when no two of them
work on the same service, that is when `started` has no repeated entry. -/
def stopAll {S Ctx Err W : Type} (svc : IService S Ctx Err W) (ctx : Ctx) :
    List S → Tracking S Ctx W → Tracking S Ctx W
  | [], st => st
  | s :: rest, st =>
    stopAll svc ctx rest
      { st with calls := st.calls ++ [{ hook := Hook.Stop, service := s, ctx := ctx }],
                world := svc.Stop s ctx st.world }

/-- The loop `for i := len(inited) - 1; i >= 0; i--` of lines 54-56; the first
argument is `i + 1`. -/
def finitLoop {S Ctx Err W : Type} (svc : IService S Ctx Err W) (ctx : Ctx) :
    Nat → Tracking S Ctx W → Tracking S Ctx W
  | 0, st => st
  | i + 1, st =>
    match st.inited[i]? with
    | none => st
    | some s =>
      finitLoop svc ctx i
        { st with calls := st.calls ++ [{ hook := Hook.Finit, service := s, ctx := ctx }],
                  world := svc.Finit s ctx st.world }

/-- The function `stopAndFinitImpl(ctx)`, bound to `StopAndFinit`. -/
def stopAndFinitImpl {S Ctx Err W : Type} (svc : IService S Ctx Err W)
    (sched : List Nat) (ctx : Ctx) (st : Tracking S Ctx W) : Tracking S Ctx W :=
  let st1 := stopAll svc ctx (stopOrder sched st.started) st
  let st2 : Tracking S Ctx W := { st1 with started := [] }
  let st3 := finitLoop svc ctx st2.inited.length st2
  { st3 with inited := [] }

/-- The body shared by the three tests of interfacetest.go:
`ctx, err := InitAndStart(ctx)` from the fresh package state, then
`StopAndFinit(ctx)` with the context that came back. -/
def initAndStartThenStopAndFinit {S Ctx Err W : Type} (svc : IService S Ctx Err W)
    (Services : List S) (sched : List Nat) (ctx : Ctx) (w : W) : Tracking S Ctx W :=
  let r := initAndStartImpl svc Services ctx (Tracking.fresh w)
  stopAndFinitImpl svc sched r.newCtx r.state

/-! ## Vocabulary of the statements -/

/-- Context and memory reached by calling `Init` on the given services in
order, each on what the previous one returned. -/
def afterInits {S Ctx Err W : Type} (svc : IService S Ctx Err W) :
    List S → Ctx → W → Ctx × W
  | [], c, w => (c, w)
  | s :: rest, c, w => afterInits svc rest (svc.Init s c w).newCtx (svc.Init s c w).world

/-- Every `Init` of the run over the given services returns a nil error. -/
def InitsSucceed {S Ctx Err W : Type} (svc : IService S Ctx Err W) :
    List S → Ctx → W → Prop
  | [], _, _ => True
  | s :: rest, c, w =>
    (svc.Init s c w).err = none ∧
      InitsSucceed svc rest (svc.Init s c w).newCtx (svc.Init s c w).world

instance InitsSucceed.decidable {S Ctx Err W : Type} (svc : IService S Ctx Err W) :
    (ss : List S) → (c : Ctx) → (w : W) → Decidable (InitsSucceed svc ss c w)
  | [], _, _ => isTrue trivial
  | s :: rest, c, w =>
    @instDecidableAnd _ _ Option.decidable_eq_none
      (InitsSucceed.decidable svc rest (svc.Init s c w).newCtx (svc.Init s c w).world)

/-- Memory reached by calling `Start` with context `c` on the given services
in order. -/
def afterStarts {S Ctx Err W : Type} (svc : IService S Ctx Err W) (c : Ctx) :
    List S → W → W
  | [], w => w
  | s :: rest, w => afterStarts svc c rest (svc.Start s c w).world

/-- Every `Start` of the run over the given services returns a nil error. -/
def StartsSucceed {S Ctx Err W : Type} (svc : IService S Ctx Err W) (c : Ctx) :
    List S → W → Prop
  | [], _ => True
  | s :: rest, w =>
    (svc.Start s c w).err = none ∧ StartsSucceed svc c rest (svc.Start s c w).world

instance StartsSucceed.decidable {S Ctx Err W : Type} (svc : IService S Ctx Err W) (c : Ctx) :
    (ss : List S) → (w : W) → Decidable (StartsSucceed svc c ss w)
  | [], _ => isTrue trivial
  | s :: rest, w =>
    @instDecidableAnd _ _ Option.decidable_eq_none
      (StartsSucceed.decidable svc c rest (svc.Start s c w).world)

/-- The `Init` calls of a run over the given services, with the context each
one receives. -/
def initCalls {S Ctx Err W : Type} (svc : IService S Ctx Err W) :
    List S → Ctx → W → List (Call S Ctx)
  | [], _, _ => []
  | s :: rest, c, w =>
    { hook := Hook.Init, service := s, ctx := c } ::
      initCalls svc rest (svc.Init s c w).newCtx (svc.Init s c w).world

/-- A call of the given hook on each of the given services, all with context `c`. -/
def callsOf {S Ctx : Type} (h : Hook) (c : Ctx) (ss : List S) : List (Call S Ctx) :=
  ss.map fun s => { hook := h, service := s, ctx := c }

/-- Memory reached by calling `Stop` with context `c` on the given services in
order. -/
def afterStops {S Ctx Err W : Type} (svc : IService S Ctx Err W) (c : Ctx) :
    List S → W → W
  | [], w => w
  | s :: rest, w => afterStops svc c rest (svc.Stop s c w)

/-- Memory reached by calling `Finit` with context `c` on the given services
in order. -/
def afterFinits {S Ctx Err W : Type} (svc : IService S Ctx Err W) (c : Ctx) :
    List S → W → W
  | [], w => w
  | s :: rest, w => afterFinits svc c rest (svc.Finit s c w)

/-- Every `Init` of the run over the given services only adds keys: each key
that has a value in the context it receives has one in the context it returns.
`Value` is the lookup of the context type. -/
def InitsKeepKeys {S Ctx Err W K V : Type} (svc : IService S Ctx Err W)
    (Value : Ctx → K → Option V) : List S → Ctx → W → Prop
  | [], _, _ => True
  | s :: rest, c, w =>
    (∀ key, Value c key ≠ none → Value (svc.Init s c w).newCtx key ≠ none) ∧
      InitsKeepKeys svc Value rest (svc.Init s c w).newCtx (svc.Init s c w).world

/-! ## context.Context, as far as values go -/

/-- A `context.Context` seen through `Value`: the chain of `WithValue`
bindings, the most recent first; the empty chain is `context.Background()`. -/
abbrev Context (K V : Type) := List (K × V)

/-- The call `context.WithValue(parent, key, val)`. -/
def Context.WithValue {K V : Type} (parent : Context K V) (key : K) (val : V) : Context K V :=
  (key, val) :: parent

/-- The call `ctx.Value(key)`: the most recent binding of `key`, `none` for nil. -/
def Context.Value {K V : Type} [DecidableEq K] : Context K V → K → Option V
  | [], _ => none
  | (k, v) :: parent, key => if k = key then some v else Context.Value parent key

/-! ## interfacetest.go: the test double `myService` -/

/-- The struct `myService`. -/
structure myService where
  Name : String
  State : Int
  Failstart : Bool
  Failinit : Bool
  ctxValue : Option Bool

/-- The literal `&myService{Name: name, Failinit: failinit, Failstart: failstart}`. -/
def myService.new (name : String) (failinit failstart : Bool) : myService :=
  { Name := name, State := 0, Failstart := failstart, Failinit := failinit, ctxValue := none }

/-- The memory behind the `*myService` pointers: address to struct. -/
abbrev Heap := Nat → myService

/-- The method `(s *myService) Init`. -/
def myService.Init (s : Nat) (ctx : Context String Bool) (h : Heap) :
    InitResult (Context String Bool) String Heap :=
  if (h s).Failinit then
    { newCtx := ctx, err := some ((h s).Name ++ ":" ++ "Init fails"), world := h }
  else
    { newCtx := Context.WithValue ctx (h s).Name true, err := none,
      world := Function.update h s { h s with State := (h s).State + 1 } }

/-- The method `(s *myService) Start`. -/
def myService.Start (s : Nat) (ctx : Context String Bool) (h : Heap) :
    StartResult String Heap :=
  if (h s).Failstart then
    { err := some ((h s).Name ++ ":" ++ "Start fails"), world := h }
  else
    { err := none,
      world := Function.update h s
        { h s with ctxValue := Context.Value ctx (h s).Name, State := (h s).State + 1 } }

/-- The method `(s *myService) Stop`. -/
def myService.Stop (s : Nat) (_ctx : Context String Bool) (h : Heap) : Heap :=
  Function.update h s { h s with State := (h s).State - 1 }

/-- The method `(s *myService) Finit`. -/
def myService.Finit (s : Nat) (_ctx : Context String Bool) (h : Heap) : Heap :=
  Function.update h s { h s with State := (h s).State - 1, Failinit := false, Failstart := false }

/-- The type `*myService` as an implementation of `IService`. -/
def myServiceImpl : IService Nat (Context String Bool) String Heap :=
  { Init := myService.Init, Start := myService.Start,
    Stop := myService.Stop, Finit := myService.Finit }

/-- Memory of the tests: `s1` at address 1 is `&myService{Name: "Service1"}`,
`s2` at address 2 is `&myService{Name: "Service2", ...}` with the given flags;
every other address holds a `&myService{Name: "Service3"}`. -/
def testHeap (failinit2 failstart2 : Bool) : Heap := fun p =>
  if p = 1 then myService.new "Service1" false false
  else if p = 2 then myService.new "Service2" failinit2 failstart2
  else myService.new "Service3" false false

/-- A service outside the repository that breaks the contract of `Init`: its
`Init` is `return context.WithValue(ctx, "leak", true), errors.New("Init fails")`;
its other hooks do nothing and `Start` returns nil. It owns no memory. -/
def leakyImpl : IService Nat (Context String Bool) String Unit :=
  { Init := fun _ ctx w =>
      { newCtx := Context.WithValue ctx "leak" true, err := some "Init fails", world := w },
    Start := fun _ _ w => { err := none, world := w },
    Stop := fun _ _ w => w,
    Finit := fun _ _ w => w }

/-- Memory of TestFailedInit with the first service renamed: `s1` at address 1
is `&myService{Name: "Service"}`, `s2` at address 2 is
`&myService{Name: "Service2", Failinit: true}`. -/
def renamedHeap : Heap := fun p =>
  if p = 1 then myService.new "Service" false false
  else myService.new "Service2" true false

/-- The call `strings.Contains(s, substr)`. -/
def stringsContains (s substr : String) : Prop := substr.data <:+: s.data

instance stringsContains.decidable (s substr : String) : Decidable (stringsContains s substr) :=
  inferInstanceAs (Decidable (substr.data <:+: s.data))

/-- One call made by the host from outside the package: `InitAndStart(ctx)`
with the value `Services` has at that moment, or `StopAndFinit(ctx)` with the
order in which the scheduler will run its goroutines. -/
inductive Op (S Ctx : Type) where
  | InitAndStart (Services : List S) (ctx : Ctx)
  | StopAndFinit (sched : List Nat) (ctx : Ctx)

/-- The package state after one call of the host. -/
def runOp {S Ctx Err W : Type} (svc : IService S Ctx Err W) :
    Op S Ctx → Tracking S Ctx W → Tracking S Ctx W
  | Op.InitAndStart Services ctx, st => (initAndStartImpl svc Services ctx st).state
  | Op.StopAndFinit sched ctx, st => stopAndFinitImpl svc sched ctx st

/-- The package state after a sequence of calls of the host, first to last. -/
def runOps {S Ctx Err W : Type} (svc : IService S Ctx Err W) :
    List (Op S Ctx) → Tracking S Ctx W → Tracking S Ctx W
  | [], st => st
  | op :: rest, st => runOps svc rest (runOp svc op st)

/-- Number of calls of hook `h` on service `s` in a log. -/
def made {S Ctx : Type} [DecidableEq S] (h : Hook) (s : S) (calls : List (Call S Ctx)) : Nat :=
  calls.countP fun e => decide (e.hook = h ∧ e.service = s)

/-- The effect of one logged call on the memory of the services, and whether
the hook returned a nil error (`Stop` and `Finit` return nothing: `true`). -/
def applyCall {S Ctx Err W : Type} (svc : IService S Ctx Err W) (e : Call S Ctx) (w : W) :
    Bool × W :=
  match e.hook with
  | Hook.Init => ((svc.Init e.service e.ctx w).err.isNone, (svc.Init e.service e.ctx w).world)
  | Hook.Start => ((svc.Start e.service e.ctx w).err.isNone, (svc.Start e.service e.ctx w).world)
  | Hook.Stop => (true, svc.Stop e.service e.ctx w)
  | Hook.Finit => (true, svc.Finit e.service e.ctx w)

/-- Memory reached by making the calls of a log, in order, from memory `w`. -/
def replayWorld {S Ctx Err W : Type} (svc : IService S Ctx Err W) :
    List (Call S Ctx) → W → W
  | [], w => w
  | e :: rest, w => replayWorld svc rest (applyCall svc e w).2

/-- Number of calls of hook `h` on service `s` in a log that returned a nil
error, the calls of the log being made in order from memory `w`. -/
def succeeded {S Ctx Err W : Type} [DecidableEq S] (svc : IService S Ctx Err W)
    (h : Hook) (s : S) : List (Call S Ctx) → W → Nat
  | [], _ => 0
  | e :: rest, w =>
    (if e.hook = h ∧ e.service = s ∧ (applyCall svc e w).1 = true then 1 else 0)
      + succeeded svc h s rest (applyCall svc e w).2

/-- The bookkeeping invariant of the package state, for a log that started
from memory `w0`: the memory is the one the logged calls produce; `started`
holds, per service, the successful Starts not yet matched by a Stop, and
`inited` the successful Inits not yet matched by a Finit; and at every point
of the log no service had more Stops than successful Starts, nor more Finits
than successful Inits. -/
structure Balanced {S Ctx Err W : Type} [DecidableEq S] (svc : IService S Ctx Err W)
    (w0 : W) (st : Tracking S Ctx W) : Prop where
  world_eq : st.world = replayWorld svc st.calls w0
  stops : ∀ s, made Hook.Stop s st.calls + st.started.count s
    = succeeded svc Hook.Start s st.calls w0
  finits : ∀ s, made Hook.Finit s st.calls + st.inited.count s
    = succeeded svc Hook.Init s st.calls w0
  safe : ∀ n s,
    made Hook.Stop s (st.calls.take n) ≤ succeeded svc Hook.Start s (st.calls.take n) w0 ∧
    made Hook.Finit s (st.calls.take n) ≤ succeeded svc Hook.Init s (st.calls.take n) w0

/-- One for a call of hook `h` on service `s`, zero for any other call. -/
def madeOne {S Ctx : Type} [DecidableEq S] (h : Hook) (s : S) (e : Call S Ctx) : Nat :=
  if e.hook = h ∧ e.service = s then 1 else 0

/-- One for a call of hook `h` on service `s` that returns a nil error when
made from memory `w`, zero for any other call. -/
def succeededOne {S Ctx Err W : Type} [DecidableEq S] (svc : IService S Ctx Err W)
    (h : Hook) (s : S) (e : Call S Ctx) (w : W) : Nat :=
  if e.hook = h ∧ e.service = s ∧ (applyCall svc e w).1 = true then 1 else 0

/-! ## Package godif: declaration registry and resolver

godif.go is absent from the sources, only its test godif_test.go is there; the
registry and `ResolveAll` below follow sections 3, 4.1 and 4.2 of the
specification. A slot is the address of a variable; `Ty` is the type token
provisions are matched by, `Val` the type of the provided values. -/

namespace godif

/-- Modelled from the spec: a requirement as godif.go (absent) records it,
"the address of a typed slot plus its declared type", of the singular or of
the collection kind. -/
structure Requirement (Ty : Type) where
  slot : Nat
  ty : Ty
  collection : Bool

/-- Modelled from the spec: a provision as godif.go (absent) records it, "a
value plus the type it satisfies"; `needs` are the slots of the requirements
its own construction depends on. -/
structure Provision (Ty Val : Type) where
  ty : Ty
  value : Val
  needs : List Nat

/-- Modelled from the spec: the Declaration Registry of godif.go (absent):
requirements, provisions and collection provisions (slot and value), each in
declaration order. -/
structure Registry (Ty Val : Type) where
  requirements : List (Requirement Ty)
  provisions : List (Provision Ty Val)
  elements : List (Nat × Val)

/-- Modelled from the spec: `Reset` of godif.go (absent), which "clears all
pending declarations". -/
def Reset {Ty Val : Type} : Registry Ty Val :=
  { requirements := [], provisions := [], elements := [] }

/-- Modelled from the spec: `Require` of godif.go (absent), the operation
`declareRequirement(slot)`. A requirement is identified by the address of its
slot, so requiring a slot again adds nothing. -/
def Require {Ty Val : Type} (reg : Registry Ty Val) (r : Requirement Ty) : Registry Ty Val :=
  if reg.requirements.any (fun q => decide (q.slot = r.slot)) then reg
  else { reg with requirements := reg.requirements ++ [r] }

/-- Modelled from the spec: `Provide` of godif.go (absent), the operation
`declareProvision(type, value)`. -/
def Provide {Ty Val : Type} (reg : Registry Ty Val) (p : Provision Ty Val) : Registry Ty Val :=
  { reg with provisions := reg.provisions ++ [p] }

/-- Modelled from the spec: `ProvideSliceElement` of godif.go (absent), the
operation `declareCollectionProvision(slot, value)`. -/
def ProvideSliceElement {Ty Val : Type} (reg : Registry Ty Val) (slot : Nat) (value : Val) :
    Registry Ty Val :=
  { reg with elements := reg.elements ++ [(slot, value)] }

/-- Modelled from the spec: one declaration made by the host during the
declaration phase, through the API of godif.go (absent). -/
inductive Decl (Ty Val : Type) where
  | Require (r : Requirement Ty)
  | Provide (p : Provision Ty Val)
  | ProvideSliceElement (slot : Nat) (value : Val)

/-- Modelled from the spec: the registry of godif.go (absent) after one more
declaration. -/
def declare {Ty Val : Type} (reg : Registry Ty Val) : Decl Ty Val → Registry Ty Val
  | Decl.Require r => Require reg r
  | Decl.Provide p => Provide reg p
  | Decl.ProvideSliceElement slot value => ProvideSliceElement reg slot value

/-- Modelled from the spec: the registry of godif.go (absent) after `Reset()`
and the given declarations, first to last. -/
def declareAll {Ty Val : Type} (ds : List (Decl Ty Val)) : Registry Ty Val :=
  ds.foldl declare Reset

/-- Modelled from the spec: the error records of godif.go (absent) that
resolution returns; each names the slot, or the slots, it is about. -/
inductive Error where
  | EImplementationNotProvided (slot : Nat)
  | MultipleProvisionsForSingularSlot (slot : Nat)
  | CyclicDependency (slots : List Nat)
  deriving DecidableEq

/-- Modelled from the spec: whether an error record of godif.go (absent) is
about the requirement with the given slot. -/
def Error.concerns : Error → Nat → Bool
  | Error.EImplementationNotProvided s, slot => decide (s = slot)
  | Error.MultipleProvisionsForSingularSlot s, slot => decide (s = slot)
  | Error.CyclicDependency ss, slot => decide (slot ∈ ss)

/-- Modelled from the spec: the variables godif.go (absent) injects into:
`single slot` is the content of a singular slot, `none` for nil, and
`collection slot` the content of a collection slot. -/
structure Slots (Val : Type) where
  single : Nat → Option Val
  collection : Nat → List Val

/-- Modelled from the spec: step 2 of `ResolveAll` in godif.go (absent), the
provisions that match a requirement "by type", in declaration order. -/
def matching {Ty Val : Type} [DecidableEq Ty] (reg : Registry Ty Val) (r : Requirement Ty) :
    List (Provision Ty Val) :=
  reg.provisions.filter fun p => decide (p.ty = r.ty)

/-- Modelled from the spec: step 1 of `ResolveAll` in godif.go (absent), the
requirements of the singular kind. -/
def singular {Ty Val : Type} (reg : Registry Ty Val) : List (Requirement Ty) :=
  reg.requirements.filter fun r => !r.collection

/-- Modelled from the spec: step 2 of `ResolveAll` in godif.go (absent):
"Zero matches → ImplementationNotProvided. More than one match →
MultipleProvisionsForSingularSlot. Exactly one → candidate binding." -/
def singularError {Ty Val : Type} [DecidableEq Ty] (reg : Registry Ty Val)
    (r : Requirement Ty) : Option Error :=
  match matching reg r with
  | [] => some (Error.EImplementationNotProvided r.slot)
  | [_] => none
  | _ :: _ :: _ => some (Error.MultipleProvisionsForSingularSlot r.slot)

/-- Modelled from the spec: step 2 of `ResolveAll` in godif.go (absent), the
candidate binding of a singular requirement with exactly one match. -/
def candidate {Ty Val : Type} [DecidableEq Ty] (reg : Registry Ty Val)
    (r : Requirement Ty) : Option (Nat × Provision Ty Val) :=
  match matching reg r with
  | [p] => some (r.slot, p)
  | _ => none

/-- Modelled from the spec: step 4 of `ResolveAll` in godif.go (absent), one
pass of the fixed-point resolution: bind every candidate not yet bound whose
provision needs only slots already bound or collection slots (step 3: a
collection is never an error). -/
def bindPass {Ty Val : Type} (reg : Registry Ty Val) (cands : List (Nat × Provision Ty Val))
    (bound : List Nat) : List Nat :=
  bound ++ (cands.filter fun c =>
    decide (c.1 ∉ bound) &&
      c.2.needs.all fun n =>
        decide (n ∈ bound) || reg.requirements.any fun q => q.collection && decide (q.slot = n)).map
    Prod.fst

/-- Modelled from the spec: step 4 of `ResolveAll` in godif.go (absent):
"repeatedly bind any requirement whose provision's transitive requirements are
already bound", until "a full pass makes no additional progress". The first
argument bounds the number of passes. -/
def bindAll {Ty Val : Type} (reg : Registry Ty Val) (cands : List (Nat × Provision Ty Val)) :
    Nat → List Nat → List Nat
  | 0, bound => bound
  | fuel + 1, bound =>
    if (bindPass reg cands bound).length = bound.length then bound
    else bindAll reg cands fuel (bindPass reg cands bound)

/-- Modelled from the spec: `ResolveAll` of godif.go (absent), steps 1 to 5 of
section 4.2: the errors of the singular requirements, then one
`CyclicDependency` for the candidates left unbound if there are any; the
bindings made are written into the slots and the collection provisions are
appended to their slots in declaration order. -/
def ResolveAll {Ty Val : Type} [DecidableEq Ty] (reg : Registry Ty Val) (slots : Slots Val) :
    List Error × Slots Val :=
  let cands := (singular reg).filterMap (candidate reg)
  let bound := bindAll reg cands cands.length []
  let unbound := (cands.map Prod.fst).filter fun s => decide (s ∉ bound)
  let errs := (singular reg).filterMap (singularError reg)
    ++ (if unbound = [] then [] else [Error.CyclicDependency unbound])
  (errs,
    { single := fun s =>
        if s ∈ bound then
          match cands.find? (fun c => decide (c.1 = s)) with
          | some c => some c.2.value
          | none => slots.single s
        else slots.single s,
      collection := fun s =>
        slots.collection s ++ ((reg.elements.filter fun e => decide (e.1 = s)).map Prod.snd) })

end godif

/-! ## Package services: the lifecycle with `Start` and `Stop` only

impl.go is absent from the sources, only its test impl_test.go is there; the
lifecycle functions below follow sections 4.3 and 4.4 of the specification,
the test double `MyService` follows impl_test.go. -/

namespace services

/-- Modelled from the spec: the two ways a call of `Start(ctx)
(context.Context, error)` of a service ends, as impl.go (absent) sees it: it
returns its pair, or it panics with a payload. -/
inductive Ending (Ctx Err P : Type) where
  | returns (newCtx : Ctx) (err : Option Err)
  | panics (data : P)
  deriving DecidableEq

/-- Modelled from the spec: whether a call of `Start` seen by impl.go (absent)
succeeded: it returned, and with a nil error. -/
def Ending.ok {Ctx Err P : Type} : Ending Ctx Err P → Bool
  | Ending.returns _ none => true
  | Ending.returns _ (some _) => false
  | Ending.panics _ => false

/-- Modelled from the spec: the interface `IService` of package services,
declared in impl.go (absent), with the two methods impl_test.go implements;
method dispatch for receivers of type `S`, on the memory `W` of the services. -/
structure IService (S Ctx Err P W : Type) where
  Start : S → Ctx → W → Ending Ctx Err P × W
  Stop : S → Ctx → W → W

/-- Modelled from the spec: the errors the lifecycle functions of impl.go
(absent) return: the error of a service as it is, or `*EPanic`, the
"PanicInService" record that "carries the recovered panic payload and identity
of the offending service". -/
inductive Error (S Err P : Type) where
  | ServiceError (err : Err)
  | EPanic (PanicData : P) (PanicedService : S)
  deriving DecidableEq

/-- Modelled from the spec: what `Start(ctx, services, verbose)` of impl.go
(absent) returns, "the list of services actually started" included, with the
hook calls made so far and the memory of the services. -/
structure Started (S Ctx Err P W : Type) where
  ctx : Ctx
  startedServices : List S
  err : Option (Error S Err P)
  calls : List (Call S Ctx)
  world : W

/-- Modelled from the spec: the loop of `Start` in impl.go (absent), over the
remaining services: sequential, order-preserving, stopping at the first error;
a panic is "recovered at the orchestrator boundary, converted into a
PanicInService error" and "the loop must stop at the paniced service exactly
as it would for a normal error". -/
def startEach {S Ctx Err P W : Type} (svc : IService S Ctx Err P W) :
    List S → Started S Ctx Err P W → Started S Ctx Err P W
  | [], acc => acc
  | s :: rest, acc =>
    let calls := acc.calls ++ [{ hook := Hook.Start, service := s, ctx := acc.ctx }]
    match svc.Start s acc.ctx acc.world with
    | (Ending.returns newCtx none, w) =>
      startEach svc rest
        { ctx := newCtx, startedServices := acc.startedServices ++ [s], err := none,
          calls := calls, world := w }
    | (Ending.returns newCtx (some e), w) =>
      { ctx := newCtx, startedServices := acc.startedServices,
        err := some (Error.ServiceError e), calls := calls, world := w }
    | (Ending.panics data, w) =>
      { ctx := acc.ctx, startedServices := acc.startedServices,
        err := some (Error.EPanic data s), calls := calls, world := w }

/-- Modelled from the spec: the free function `Start(ctx, services, verbose)`
of impl.go (absent). The verbosity toggle only "controls whether recovered
panics are also logged" and "does not affect returned error content". -/
def Start {S Ctx Err P W : Type} (svc : IService S Ctx Err P W) (ctx : Ctx)
    (services : List S) (_verbose : Bool) (calls : List (Call S Ctx)) (w : W) :
    Started S Ctx Err P W :=
  startEach svc services
    { ctx := ctx, startedServices := [], err := none, calls := calls, world := w }

/-- Modelled from the spec: the free function `Stop(ctx, services, verbose)` of
impl.go (absent): one concurrent task per service, all joined; the tasks run
in the order `stopOrder sched services`. It returns the log and the memory. -/
def Stop {S Ctx Err P W : Type} (svc : IService S Ctx Err P W) (sched : List Nat) (ctx : Ctx)
    (services : List S) (_verbose : Bool) (calls : List (Call S Ctx)) (w : W) :
    List (Call S Ctx) × W :=
  (stopOrder sched services).foldl
    (fun acc s => (acc.1 ++ [{ hook := Hook.Stop, service := s, ctx := ctx }],
      svc.Stop s ctx acc.2))
    (calls, w)

/-- Modelled from the spec: what `Run()` of impl.go (absent) returns, with the
hook calls it made and the memory of the services it leaves. -/
structure Ran (S Ctx Err P W : Type) where
  err : Option (Error S Err P)
  calls : List (Call S Ctx)
  world : W

/-- Modelled from the spec: `Run()` of impl.go (absent): it "performs
InitAndStart, then blocks the calling execution context until either
Terminate() is invoked or an external termination signal arrives, then
performs StopAndFinit and returns the accumulated error". The wait changes
nothing in the state and is taken to end. `Services` and the root context are
parameters. -/
def Run {S Ctx Err P W : Type} (svc : IService S Ctx Err P W) (Services : List S)
    (sched : List Nat) (ctx : Ctx) (verbose : Bool) (w : W) : Ran S Ctx Err P W :=
  let r := Start svc ctx Services verbose [] w
  let stopped := Stop svc sched r.ctx r.startedServices verbose r.calls r.world
  { err := r.err, calls := stopped.1, world := stopped.2 }

/-- Context and memory reached by calling `Start` on the given services in
order, each on the context the previous one returned; a call that panics
leaves the context as it is. -/
def afterStarts {S Ctx Err P W : Type} (svc : IService S Ctx Err P W) :
    List S → Ctx → W → Ctx × W
  | [], c, w => (c, w)
  | s :: rest, c, w =>
    match svc.Start s c w with
    | (Ending.returns newCtx _, w2) => afterStarts svc rest newCtx w2
    | (Ending.panics _, w2) => afterStarts svc rest c w2

/-- Every `Start` of the run over the given services returns, with a nil
error. -/
def StartsSucceed {S Ctx Err P W : Type} (svc : IService S Ctx Err P W) :
    List S → Ctx → W → Prop
  | [], _, _ => True
  | s :: rest, c, w =>
    (svc.Start s c w).1.ok = true ∧
      StartsSucceed svc rest (afterStarts svc [s] c w).1 (afterStarts svc [s] c w).2

instance StartsSucceed.decidable {S Ctx Err P W : Type} (svc : IService S Ctx Err P W) :
    (ss : List S) → (c : Ctx) → (w : W) → Decidable (StartsSucceed svc ss c w)
  | [], _, _ => isTrue trivial
  | s :: rest, c, w =>
    @instDecidableAnd _ _ inferInstance
      (StartsSucceed.decidable svc rest (afterStarts svc [s] c w).1 (afterStarts svc [s] c w).2)

/-- The `Start` calls of a run over the given services, with the context each
one receives. -/
def startCalls {S Ctx Err P W : Type} (svc : IService S Ctx Err P W) :
    List S → Ctx → W → List (Call S Ctx)
  | [], _, _ => []
  | s :: rest, c, w =>
    { hook := Hook.Start, service := s, ctx := c } ::
      startCalls svc rest (afterStarts svc [s] c w).1 (afterStarts svc [s] c w).2

/-- Every `Start` of the run over the given services only adds keys: each key
that has a value in the context it receives has one in the context reached
after the call. `Value` is the lookup of the context type. -/
def StartsKeepKeys {S Ctx Err P W K V : Type} (svc : IService S Ctx Err P W)
    (Value : Ctx → K → Option V) : List S → Ctx → W → Prop
  | [], _, _ => True
  | s :: rest, c, w =>
    (∀ key, Value c key ≠ none → Value (afterStarts svc [s] c w).1 key ≠ none) ∧
      StartsKeepKeys svc Value rest (afterStarts svc [s] c w).1 (afterStarts svc [s] c w).2

/-- The struct `MyService` of impl_test.go, without its `*sync.WaitGroup`. -/
structure MyService where
  Name : String
  State : Int
  Failstart : Bool
  PanicData : Option String
  CtxValue : Option Int
  runningServiceNumber : Int
  StartInvoked : Bool

/-- The literal `&MyService{Name: name, Failstart: failstart, PanicData: panicData}`. -/
def MyService.new (name : String) (failstart : Bool) (panicData : Option String) : MyService :=
  { Name := name, State := 0, Failstart := failstart, PanicData := panicData, CtxValue := none,
    runningServiceNumber := 0, StartInvoked := false }

/-- The memory of impl_test.go: the structs behind the `*MyService` pointers
and the package variables `runningServices` and `lastCtx`. -/
structure TestWorld where
  heap : Nat → MyService
  runningServices : Int
  lastCtx : Context String Int

/-- The method `(s *MyService) Start` of impl_test.go; `s.Wg.Done()` is left
out. -/
def MyService.Start (s : Nat) (ctx : Context String Int) (w : TestWorld) :
    Ending (Context String Int) String String × TestWorld :=
  let w1 : TestWorld :=
    { w with heap := Function.update w.heap s { w.heap s with StartInvoked := true } }
  if (w1.heap s).Failstart then
    (Ending.returns ctx (some ((w1.heap s).Name ++ ":" ++ "Start fails")), w1)
  else
    match (w1.heap s).PanicData with
    | some data => (Ending.panics data, w1)
    | none =>
      let newCtx := Context.WithValue ctx (w1.heap s).Name (w1.runningServices * 1000)
      (Ending.returns newCtx none,
        { heap := Function.update w1.heap s
            { w1.heap s with State := (w1.heap s).State + 1,
                             runningServiceNumber := w1.runningServices },
          runningServices := w1.runningServices + 1,
          lastCtx := newCtx })

/-- The method `(s *MyService) Stop` of impl_test.go. -/
def MyService.Stop (s : Nat) (_ctx : Context String Int) (w : TestWorld) : TestWorld :=
  { w with
    heap := Function.update w.heap s
      { w.heap s with State := (w.heap s).State - 1,
                      runningServiceNumber :=
                        (w.heap s).runningServiceNumber - (w.runningServices - 1) },
    runningServices := w.runningServices - 1 }

/-- The type `*MyService` as an implementation of `IService`. -/
def MyServiceImpl : IService Nat (Context String Int) String String TestWorld :=
  { Start := MyService.Start, Stop := MyService.Stop }

/-- Memory of TestPanicedStart: `s1` at address 1 is `&MyService{Name:
"Service1"}`, `s2` at address 2 is `&MyService{Name: "Service2", PanicData:
"somethingwrong"}`, every other address holds a `&MyService{Name:
"Service3"}`; `runningServices` is 0. -/
def panicWorld : TestWorld :=
  { heap := fun p =>
      if p = 1 then MyService.new "Service1" false none
      else if p = 2 then MyService.new "Service2" false (some "somethingwrong")
      else MyService.new "Service3" false none,
    runningServices := 0,
    lastCtx := [] }

/-- Memory of TestContextStartStopOrder with three services in place of a
hundred: address `i` holds `&MyService{Name: fmt.Sprint("Service", i)}`;
`runningServices` is 0. -/
def orderWorld : TestWorld :=
  { heap := fun p =>
      if p = 0 then MyService.new "Service0" false none
      else if p = 1 then MyService.new "Service1" false none
      else MyService.new "Service2" false none,
    runningServices := 0,
    lastCtx := [] }

end services

/-! ## Helper lemmas on the two loops of `initAndStartImpl` -/

theorem afterInits_append {S Ctx Err W : Type} (svc : IService S Ctx Err W)
    (xs ys : List S) (c : Ctx) (w : W) :
    afterInits svc (xs ++ ys) c w
      = afterInits svc ys (afterInits svc xs c w).1 (afterInits svc xs c w).2 := by
  induction xs generalizing c w with
  | nil => rfl
  | cons x xs ih =>
    rw [List.cons_append]
    simp only [afterInits]
    exact ih _ _

theorem initCalls_append {S Ctx Err W : Type} (svc : IService S Ctx Err W)
    (xs ys : List S) (c : Ctx) (w : W) :
    initCalls svc (xs ++ ys) c w
      = initCalls svc xs c w
          ++ initCalls svc ys (afterInits svc xs c w).1 (afterInits svc xs c w).2 := by
  induction xs generalizing c w with
  | nil => rfl
  | cons x xs ih =>
    rw [List.cons_append]
    simp only [initCalls, afterInits, List.cons_append]
    rw [ih]

theorem initCalls_sig {S Ctx Err W : Type} (svc : IService S Ctx Err W)
    (xs : List S) (c : Ctx) (w : W) :
    (initCalls svc xs c w).map Call.sig = xs.map fun s => (Hook.Init, s) := by
  induction xs generalizing c w with
  | nil => rfl
  | cons x xs ih => simp only [initCalls, List.map_cons, ih, Call.sig]

theorem callsOf_sig {S Ctx : Type} (h : Hook) (c : Ctx) (xs : List S) :
    (callsOf h c xs).map Call.sig = xs.map fun s => (h, s) := by
  simp [callsOf, Call.sig, Function.comp_def]

theorem InitsSucceed_append {S Ctx Err W : Type} (svc : IService S Ctx Err W)
    (xs ys : List S) (c : Ctx) (w : W) :
    InitsSucceed svc (xs ++ ys) c w ↔
      InitsSucceed svc xs c w ∧
        InitsSucceed svc ys (afterInits svc xs c w).1 (afterInits svc xs c w).2 := by
  induction xs generalizing c w with
  | nil => simp [InitsSucceed, afterInits]
  | cons x xs ih =>
    rw [List.cons_append]
    simp only [InitsSucceed, afterInits]
    rw [ih, and_assoc]

/-- While the `Init`s succeed the first loop walks on: it records the services
and reaches the rest of the list with the threaded context. -/
theorem initLoop_append {S Ctx Err W : Type} (svc : IService S Ctx Err W)
    (xs ys : List S) (c : Ctx) (st : Tracking S Ctx W)
    (h : InitsSucceed svc xs c st.world) :
    initLoop svc (xs ++ ys) c st
      = initLoop svc ys (afterInits svc xs c st.world).1
          { inited := st.inited ++ xs, started := st.started,
            calls := st.calls ++ initCalls svc xs c st.world,
            world := (afterInits svc xs c st.world).2 } := by
  induction xs generalizing c st with
  | nil => simp [afterInits, initCalls]
  | cons x xs ih =>
    obtain ⟨h1, h2⟩ := h
    rw [List.cons_append]
    simp only [initLoop, h1]
    rw [ih (svc.Init x c st.world).newCtx
      { inited := st.inited ++ [x], started := st.started,
        calls := st.calls ++ [{ hook := Hook.Init, service := x, ctx := c }],
        world := (svc.Init x c st.world).world } h2]
    simp [afterInits, initCalls]

/-- While the `Start`s succeed the second loop walks on. -/
theorem startLoop_append {S Ctx Err W : Type} (svc : IService S Ctx Err W)
    (xs ys : List S) (c : Ctx) (st : Tracking S Ctx W)
    (h : StartsSucceed svc c xs st.world) :
    startLoop svc (xs ++ ys) c st
      = startLoop svc ys c
          { inited := st.inited, started := st.started ++ xs,
            calls := st.calls ++ callsOf Hook.Start c xs,
            world := afterStarts svc c xs st.world } := by
  induction xs generalizing st with
  | nil => simp [afterStarts, callsOf]
  | cons x xs ih =>
    obtain ⟨h1, h2⟩ := h
    rw [List.cons_append]
    simp only [startLoop, h1]
    rw [ih { inited := st.inited, started := st.started ++ [x],
             calls := st.calls ++ [{ hook := Hook.Start, service := x, ctx := c }],
             world := (svc.Start x c st.world).world } h2]
    simp [afterStarts, callsOf]

/-- The first loop when every `Init` succeeds. -/
theorem initLoop_ok {S Ctx Err W : Type} (svc : IService S Ctx Err W)
    (xs : List S) (c : Ctx) (st : Tracking S Ctx W)
    (h : InitsSucceed svc xs c st.world) :
    initLoop svc xs c st
      = { newCtx := (afterInits svc xs c st.world).1, err := none,
          state := { inited := st.inited ++ xs, started := st.started,
                     calls := st.calls ++ initCalls svc xs c st.world,
                     world := (afterInits svc xs c st.world).2 } } := by
  have := initLoop_append svc xs [] c st h
  simpa [initLoop] using this

/-- The second loop when every `Start` succeeds. -/
theorem startLoop_ok {S Ctx Err W : Type} (svc : IService S Ctx Err W)
    (xs : List S) (c : Ctx) (st : Tracking S Ctx W)
    (h : StartsSucceed svc c xs st.world) :
    startLoop svc xs c st
      = { newCtx := c, err := none,
          state := { inited := st.inited, started := st.started ++ xs,
                     calls := st.calls ++ callsOf Hook.Start c xs,
                     world := afterStarts svc c xs st.world } } := by
  have := startLoop_append svc xs [] c st h
  simpa [startLoop] using this

/-- The first loop when the `Init` of `sk` is the first to fail. -/
theorem initLoop_fail {S Ctx Err W : Type} (svc : IService S Ctx Err W)
    (pre : List S) (sk : S) (post : List S) (c : Ctx) (st : Tracking S Ctx W) (e : Err)
    (h : InitsSucceed svc pre c st.world)
    (hk : (svc.Init sk (afterInits svc pre c st.world).1
            (afterInits svc pre c st.world).2).err = some e) :
    initLoop svc (pre ++ sk :: post) c st
      = { newCtx := (svc.Init sk (afterInits svc pre c st.world).1
                      (afterInits svc pre c st.world).2).newCtx,
          err := some e,
          state := { inited := st.inited ++ pre, started := st.started,
                     calls := st.calls ++ initCalls svc (pre ++ [sk]) c st.world,
                     world := (svc.Init sk (afterInits svc pre c st.world).1
                                (afterInits svc pre c st.world).2).world } } := by
  rw [initLoop_append svc pre (sk :: post) c st h]
  simp [initLoop, hk, initCalls_append, initCalls]

/-- The second loop when the `Start` of `sk` is the first to fail. -/
theorem startLoop_fail {S Ctx Err W : Type} (svc : IService S Ctx Err W)
    (pre : List S) (sk : S) (post : List S) (c : Ctx) (st : Tracking S Ctx W) (e : Err)
    (h : StartsSucceed svc c pre st.world)
    (hk : (svc.Start sk c (afterStarts svc c pre st.world)).err = some e) :
    startLoop svc (pre ++ sk :: post) c st
      = { newCtx := c, err := some e,
          state := { inited := st.inited, started := st.started ++ pre,
                     calls := st.calls ++ callsOf Hook.Start c (pre ++ [sk]),
                     world := (svc.Start sk c (afterStarts svc c pre st.world)).world } } := by
  rw [startLoop_append svc pre (sk :: post) c st h]
  simp [startLoop, hk, callsOf]

/-! ## `initAndStartImpl` in its three cases, from any package state -/

/-- Every `Init` and every `Start` succeeds. -/
theorem initAndStartImpl_ok {S Ctx Err W : Type} (svc : IService S Ctx Err W)
    (Services : List S) (ctx : Ctx) (st : Tracking S Ctx W)
    (hInit : InitsSucceed svc Services ctx st.world)
    (hStart : StartsSucceed svc (afterInits svc Services ctx st.world).1 Services
      (afterInits svc Services ctx st.world).2) :
    initAndStartImpl svc Services ctx st
      = { newCtx := (afterInits svc Services ctx st.world).1, err := none,
          state := { inited := st.inited ++ Services, started := st.started ++ Services,
                     calls := st.calls ++ (initCalls svc Services ctx st.world
                       ++ callsOf Hook.Start (afterInits svc Services ctx st.world).1 Services),
                     world := afterStarts svc (afterInits svc Services ctx st.world).1 Services
                       (afterInits svc Services ctx st.world).2 } } := by
  unfold initAndStartImpl
  simp only [initLoop_ok svc Services ctx st hInit]
  rw [startLoop_ok svc Services _ _ hStart]
  simp

/-- The `Init` of `sk` is the first hook to fail. -/
theorem initAndStartImpl_initFail {S Ctx Err W : Type} (svc : IService S Ctx Err W)
    (pre : List S) (sk : S) (post : List S) (ctx : Ctx) (st : Tracking S Ctx W) (e : Err)
    (hInit : InitsSucceed svc pre ctx st.world)
    (hk : (svc.Init sk (afterInits svc pre ctx st.world).1
            (afterInits svc pre ctx st.world).2).err = some e) :
    initAndStartImpl svc (pre ++ sk :: post) ctx st
      = { newCtx := (svc.Init sk (afterInits svc pre ctx st.world).1
                      (afterInits svc pre ctx st.world).2).newCtx,
          err := some e,
          state := { inited := st.inited ++ pre, started := st.started,
                     calls := st.calls ++ initCalls svc (pre ++ [sk]) ctx st.world,
                     world := (svc.Init sk (afterInits svc pre ctx st.world).1
                                (afterInits svc pre ctx st.world).2).world } } := by
  unfold initAndStartImpl
  simp only [initLoop_fail svc pre sk post ctx st e hInit hk]

/-- Every `Init` succeeds and the `Start` of `sk` is the first to fail. -/
theorem initAndStartImpl_startFail {S Ctx Err W : Type} (svc : IService S Ctx Err W)
    (pre : List S) (sk : S) (post : List S) (ctx : Ctx) (st : Tracking S Ctx W) (e : Err)
    (hInit : InitsSucceed svc (pre ++ sk :: post) ctx st.world)
    (hStart : StartsSucceed svc (afterInits svc (pre ++ sk :: post) ctx st.world).1 pre
      (afterInits svc (pre ++ sk :: post) ctx st.world).2)
    (hk : (svc.Start sk (afterInits svc (pre ++ sk :: post) ctx st.world).1
            (afterStarts svc (afterInits svc (pre ++ sk :: post) ctx st.world).1 pre
              (afterInits svc (pre ++ sk :: post) ctx st.world).2)).err = some e) :
    initAndStartImpl svc (pre ++ sk :: post) ctx st
      = { newCtx := (afterInits svc (pre ++ sk :: post) ctx st.world).1, err := some e,
          state := { inited := st.inited ++ (pre ++ sk :: post), started := st.started ++ pre,
                     calls := st.calls ++ (initCalls svc (pre ++ sk :: post) ctx st.world
                       ++ callsOf Hook.Start (afterInits svc (pre ++ sk :: post) ctx st.world).1
                            (pre ++ [sk])),
                     world := (svc.Start sk (afterInits svc (pre ++ sk :: post) ctx st.world).1
                       (afterStarts svc (afterInits svc (pre ++ sk :: post) ctx st.world).1 pre
                         (afterInits svc (pre ++ sk :: post) ctx st.world).2)).world } } := by
  unfold initAndStartImpl
  simp only [initLoop_ok svc (pre ++ sk :: post) ctx st hInit]
  rw [startLoop_fail svc pre sk post _ _ e hStart hk]
  simp

/-! ## Helper lemmas on `stopAndFinitImpl` -/

theorem perm_getD_eraseIdx {S : Type} (l : List S) (i : Nat) (d : S) (h : i < l.length) :
    (l.getD i d :: l.eraseIdx i).Perm l := by
  induction l generalizing i with
  | nil => simp at h
  | cons a l ih =>
    cases i with
    | zero => simp
    | succ i =>
      have hi : i < l.length := by simpa using h
      simp only [List.getD_cons_succ, List.eraseIdx_cons_succ]
      exact (List.Perm.swap a (l.getD i d) (l.eraseIdx i)).trans ((ih i hi).cons a)

theorem stopOrderAux_perm {S : Type} (fuel : Nat) (sched : List Nat) (l : List S)
    (h : l.length = fuel) : (stopOrderAux fuel sched l).Perm l := by
  induction fuel generalizing sched l with
  | zero =>
    have : l = [] := List.length_eq_zero.mp h
    subst this
    simp [stopOrderAux]
  | succ n ih =>
    cases l with
    | nil => simp at h
    | cons p ps =>
      have hlt : sched.headD 0 % (p :: ps).length < (p :: ps).length :=
        Nat.mod_lt _ (by simp)
      have hlen : ((p :: ps).eraseIdx (sched.headD 0 % (p :: ps).length)).length = n := by
        rw [List.length_eraseIdx_of_lt hlt]
        simpa using h
      simp only [stopOrderAux]
      exact ((ih sched.tail _ hlen).cons _).trans (perm_getD_eraseIdx _ _ _ hlt)

/-- Whatever the scheduler chooses, every spawned goroutine runs once: the
order of the `Stop` calls is a permutation of `started`. -/
theorem stopOrder_perm {S : Type} (sched : List Nat) (l : List S) :
    (stopOrder sched l).Perm l :=
  stopOrderAux_perm l.length sched l rfl

theorem stopAll_eq {S Ctx Err W : Type} (svc : IService S Ctx Err W) (ctx : Ctx)
    (xs : List S) (st : Tracking S Ctx W) :
    stopAll svc ctx xs st
      = { inited := st.inited, started := st.started,
          calls := st.calls ++ callsOf Hook.Stop ctx xs,
          world := afterStops svc ctx xs st.world } := by
  induction xs generalizing st with
  | nil => simp [stopAll, callsOf, afterStops]
  | cons x xs ih =>
    simp only [stopAll]
    rw [ih]
    simp [callsOf, afterStops]

theorem finitLoop_eq {S Ctx Err W : Type} (svc : IService S Ctx Err W) (ctx : Ctx)
    (n : Nat) (st : Tracking S Ctx W) (h : n ≤ st.inited.length) :
    finitLoop svc ctx n st
      = { inited := st.inited, started := st.started,
          calls := st.calls ++ callsOf Hook.Finit ctx (st.inited.take n).reverse,
          world := afterFinits svc ctx (st.inited.take n).reverse st.world } := by
  induction n generalizing st with
  | zero => simp [finitLoop, callsOf, afterFinits]
  | succ n ih =>
    have hn : n < st.inited.length := h
    have hget : st.inited[n]? = some st.inited[n] := List.getElem?_eq_getElem hn
    simp only [finitLoop, hget]
    rw [ih { inited := st.inited, started := st.started,
             calls := st.calls ++ [{ hook := Hook.Finit, service := st.inited[n], ctx := ctx }],
             world := svc.Finit st.inited[n] ctx st.world } (Nat.le_of_lt hn)]
    have key : (st.inited.take (n + 1)).reverse = st.inited[n] :: (st.inited.take n).reverse := by
      rw [List.take_succ, hget, Option.toList_some, List.reverse_append]
      rfl
    rw [key]
    simp [callsOf, afterFinits]

/-- The whole of `stopAndFinitImpl`, from any package state. -/
theorem stopAndFinitImpl_eq {S Ctx Err W : Type} (svc : IService S Ctx Err W)
    (sched : List Nat) (ctx : Ctx) (st : Tracking S Ctx W) :
    stopAndFinitImpl svc sched ctx st
      = { inited := [], started := [],
          calls := st.calls ++ (callsOf Hook.Stop ctx (stopOrder sched st.started)
            ++ callsOf Hook.Finit ctx st.inited.reverse),
          world := afterFinits svc ctx st.inited.reverse
            (afterStops svc ctx (stopOrder sched st.started) st.world) } := by
  unfold stopAndFinitImpl
  simp only [stopAll_eq]
  rw [finitLoop_eq svc ctx st.inited.length
    { inited := st.inited, started := [],
      calls := st.calls ++ callsOf Hook.Stop ctx (stopOrder sched st.started),
      world := afterStops svc ctx (stopOrder sched st.started) st.world } (Nat.le_refl _)]
  simp

theorem filter_hook_callsOf_same {S Ctx : Type} (h : Hook) (c : Ctx) (xs : List S) :
    (callsOf h c xs).filter (fun e => decide (e.hook = h)) = callsOf h c xs := by
  simp [callsOf, List.filter_eq_self]

theorem filter_hook_callsOf_other {S Ctx : Type} (h k : Hook) (hk : k ≠ h) (c : Ctx)
    (xs : List S) : (callsOf k c xs).filter (fun e => decide (e.hook = h)) = [] := by
  simp [callsOf, List.filter_eq_nil_iff, hk]

theorem stopOrder_nil {S : Type} (sched : List Nat) : stopOrder sched ([] : List S) = [] := rfl

theorem mem_calls_of_sig {S Ctx : Type} (calls : List (Call S Ctx)) (sigs : List (Hook × S))
    (h : calls.map Call.sig = sigs) (c : Call S Ctx) (hc : c ∈ calls) :
    (c.hook, c.service) ∈ sigs := by
  rw [← h]
  exact List.mem_map_of_mem Call.sig hc

/-! ## Helper lemmas on the contexts -/

theorem afterInits_keeps {S Ctx Err W K V : Type} (svc : IService S Ctx Err W)
    (Value : Ctx → K → Option V) (xs : List S) (c : Ctx) (w : W)
    (h : InitsKeepKeys svc Value xs c w) (key : K) (hkey : Value c key ≠ none) :
    Value (afterInits svc xs c w).1 key ≠ none := by
  induction xs generalizing c w with
  | nil => exact hkey
  | cons x xs ih => exact ih _ _ h.2 (h.1 key hkey)

theorem InitsKeepKeys_append {S Ctx Err W K V : Type} (svc : IService S Ctx Err W)
    (Value : Ctx → K → Option V) (xs ys : List S) (c : Ctx) (w : W) :
    InitsKeepKeys svc Value (xs ++ ys) c w ↔
      InitsKeepKeys svc Value xs c w ∧
        InitsKeepKeys svc Value ys (afterInits svc xs c w).1 (afterInits svc xs c w).2 := by
  induction xs generalizing c w with
  | nil => simp [InitsKeepKeys, afterInits]
  | cons x xs ih =>
    rw [List.cons_append]
    simp only [InitsKeepKeys, afterInits]
    rw [ih, and_assoc]

/-- A key held by the context that the `Init` of `s` returned is held by the
context reached after the last `Init`. -/
theorem afterInits_keeps_service_keys {S Ctx Err W K V : Type} (svc : IService S Ctx Err W)
    (Value : Ctx → K → Option V) (xs : List S) (s : S) (ys : List S) (c : Ctx) (w : W)
    (h : InitsKeepKeys svc Value (xs ++ s :: ys) c w) (key : K)
    (hkey : Value (afterInits svc (xs ++ [s]) c w).1 key ≠ none) :
    Value (afterInits svc (xs ++ s :: ys) c w).1 key ≠ none := by
  have hsplit : xs ++ s :: ys = (xs ++ [s]) ++ ys := by simp
  rw [hsplit] at h ⊢
  rw [afterInits_append]
  exact afterInits_keeps svc Value ys _ _ ((InitsKeepKeys_append svc Value _ _ c w).1 h).2 key hkey

/-- Failing or not, the second loop only adds `Start` calls, all of them with
the context it was given. -/
theorem startLoop_calls {S Ctx Err W : Type} (svc : IService S Ctx Err W)
    (xs : List S) (c : Ctx) (st : Tracking S Ctx W) :
    ∃ zs, (startLoop svc xs c st).state.calls = st.calls ++ callsOf Hook.Start c zs := by
  induction xs generalizing st with
  | nil => exact ⟨[], by simp [startLoop, callsOf]⟩
  | cons x xs ih =>
    cases hx : (svc.Start x c st.world).err with
    | some e => exact ⟨[x], by simp [startLoop, hx, callsOf]⟩
    | none =>
      obtain ⟨zs, hzs⟩ := ih
        { inited := st.inited, started := st.started ++ [x],
          calls := st.calls ++ [{ hook := Hook.Start, service := x, ctx := c }],
          world := (svc.Start x c st.world).world }
      refine ⟨x :: zs, ?_⟩
      simp only [startLoop, hx]
      rw [hzs]
      simp [callsOf]

theorem initCalls_hook {S Ctx Err W : Type} (svc : IService S Ctx Err W)
    (xs : List S) (c : Ctx) (w : W) (e : Call S Ctx) (he : e ∈ initCalls svc xs c w) :
    e.hook = Hook.Init := by
  have hm := mem_calls_of_sig _ _ (initCalls_sig svc xs c w) e he
  simp only [List.mem_map, Prod.mk.injEq] at hm
  obtain ⟨_, _, h, _⟩ := hm
  exact h.symm

/-- When every `Init` succeeds, each `Start` call of `initAndStartImpl` from
the fresh state carries the context reached after the last `Init`. -/
theorem start_calls_ctx {S Ctx Err W : Type} (svc : IService S Ctx Err W)
    (Services : List S) (ctx : Ctx) (w : W) (hInit : InitsSucceed svc Services ctx w)
    (e : Call S Ctx)
    (he : e ∈ (initAndStartImpl svc Services ctx (Tracking.fresh w)).state.calls)
    (hs : e.hook = Hook.Start) : e.ctx = (afterInits svc Services ctx w).1 := by
  unfold initAndStartImpl at he
  simp only [initLoop_ok svc Services ctx (Tracking.fresh w) hInit] at he
  obtain ⟨zs, hzs⟩ := startLoop_calls svc Services (afterInits svc Services ctx w).1
    { inited := (Tracking.fresh w : Tracking S Ctx W).inited ++ Services,
      started := (Tracking.fresh w : Tracking S Ctx W).started,
      calls := (Tracking.fresh w : Tracking S Ctx W).calls ++ initCalls svc Services ctx w,
      world := (afterInits svc Services ctx w).2 }
  simp only [Tracking.fresh] at he hzs
  rw [hzs] at he
  simp only [List.nil_append, List.mem_append] at he
  rcases he with he | he
  · have := initCalls_hook svc Services ctx w e he
    rw [hs] at this
    cases this
  · simp only [callsOf, List.mem_map] at he
    obtain ⟨_, _, rfl⟩ := he
    rfl

/-- The `Init` of `myService` only adds a key: `ctx = context.WithValue(ctx, ...)`
on success, the context of the parameter on failure. -/
theorem myService_Init_keeps (s : Nat) (ctx : Context String Bool) (h : Heap) (key : String)
    (hkey : Context.Value ctx key ≠ none) :
    Context.Value (myService.Init s ctx h).newCtx key ≠ none := by
  unfold myService.Init
  split
  · exact hkey
  · simp only [Context.WithValue, Context.Value]
    split
    · simp
    · exact hkey

theorem myService_InitsKeepKeys (ss : List Nat) (ctx : Context String Bool) (h : Heap) :
    InitsKeepKeys myServiceImpl Context.Value ss ctx h := by
  induction ss generalizing ctx h with
  | nil => trivial
  | cons s ss ih => exact ⟨fun key hkey => myService_Init_keeps s ctx h key hkey, ih _ _⟩

/-! ## Helper lemmas: `initAndStartImpl` whatever the hooks return -/

/-- Either every `Init` of the run succeeds or there is a first one that fails. -/
theorem InitsSucceed_or_fails {S Ctx Err W : Type} (svc : IService S Ctx Err W)
    (xs : List S) (c : Ctx) (w : W) :
    InitsSucceed svc xs c w ∨
      ∃ pre sk post e, xs = pre ++ sk :: post ∧ InitsSucceed svc pre c w ∧
        (svc.Init sk (afterInits svc pre c w).1 (afterInits svc pre c w).2).err = some e := by
  induction xs generalizing c w with
  | nil => exact Or.inl trivial
  | cons x xs ih =>
    cases hx : (svc.Init x c w).err with
    | some e => exact Or.inr ⟨[], x, xs, e, rfl, trivial, hx⟩
    | none =>
      rcases ih (svc.Init x c w).newCtx (svc.Init x c w).world with h | ⟨pre, sk, post, e, hxs, hpre, hk⟩
      · exact Or.inl ⟨hx, h⟩
      · exact Or.inr ⟨x :: pre, sk, post, e, by rw [hxs]; rfl, ⟨hx, hpre⟩, hk⟩

/-- Either every `Start` of the run succeeds or there is a first one that fails. -/
theorem StartsSucceed_or_fails {S Ctx Err W : Type} (svc : IService S Ctx Err W)
    (c : Ctx) (xs : List S) (w : W) :
    StartsSucceed svc c xs w ∨
      ∃ pre sk post e, xs = pre ++ sk :: post ∧ StartsSucceed svc c pre w ∧
        (svc.Start sk c (afterStarts svc c pre w)).err = some e := by
  induction xs generalizing w with
  | nil => exact Or.inl trivial
  | cons x xs ih =>
    cases hx : (svc.Start x c w).err with
    | some e => exact Or.inr ⟨[], x, xs, e, rfl, trivial, hx⟩
    | none =>
      rcases ih (svc.Start x c w).world with h | ⟨pre, sk, post, e, hxs, hpre, hk⟩
      · exact Or.inl ⟨hx, h⟩
      · exact Or.inr ⟨x :: pre, sk, post, e, by rw [hxs]; rfl, ⟨hx, hpre⟩, hk⟩

theorem StartsSucceed_append {S Ctx Err W : Type} (svc : IService S Ctx Err W)
    (c : Ctx) (xs ys : List S) (w : W) :
    StartsSucceed svc c (xs ++ ys) w ↔
      StartsSucceed svc c xs w ∧ StartsSucceed svc c ys (afterStarts svc c xs w) := by
  induction xs generalizing w with
  | nil => simp [StartsSucceed, afterStarts]
  | cons x xs ih =>
    rw [List.cons_append]
    simp only [StartsSucceed, afterStarts]
    rw [ih, and_assoc]

theorem afterStarts_append {S Ctx Err W : Type} (svc : IService S Ctx Err W)
    (c : Ctx) (xs ys : List S) (w : W) :
    afterStarts svc c (xs ++ ys) w = afterStarts svc c ys (afterStarts svc c xs w) := by
  induction xs generalizing w with
  | nil => rfl
  | cons x xs ih =>
    rw [List.cons_append]
    simp only [afterStarts]
    exact ih _

/-- Whatever the hooks return, `initAndStartImpl` leaves the tracking lists it
found in place and extends them, and the calls it adds are `Init` and `Start`
calls only. -/
theorem initAndStartImpl_extends {S Ctx Err W : Type} (svc : IService S Ctx Err W)
    (Services : List S) (ctx : Ctx) (st : Tracking S Ctx W) :
    ∃ is ss new,
      (initAndStartImpl svc Services ctx st).state.inited = st.inited ++ is ∧
      (initAndStartImpl svc Services ctx st).state.started = st.started ++ ss ∧
      (initAndStartImpl svc Services ctx st).state.calls = st.calls ++ new ∧
      ∀ e ∈ new, e.hook = Hook.Init ∨ e.hook = Hook.Start := by
  have hcalls : ∀ (xs ys : List S) (c1 : Ctx) (w1 : W) (c2 : Ctx),
      ∀ e ∈ initCalls svc xs c1 w1 ++ callsOf Hook.Start c2 ys,
        e.hook = Hook.Init ∨ e.hook = Hook.Start := by
    intro xs ys c1 w1 c2 e he
    rcases List.mem_append.mp he with he | he
    · exact Or.inl (initCalls_hook svc xs c1 w1 e he)
    · simp only [callsOf, List.mem_map] at he
      obtain ⟨_, _, rfl⟩ := he
      exact Or.inr rfl
  rcases InitsSucceed_or_fails svc Services ctx st.world with hI | ⟨pre, sk, post, e, hxs, hpre, hk⟩
  · rcases StartsSucceed_or_fails svc (afterInits svc Services ctx st.world).1 Services
      (afterInits svc Services ctx st.world).2 with hS | ⟨pre, sk, post, e, hxs, hpre, hk⟩
    · rw [initAndStartImpl_ok svc Services ctx st hI hS]
      exact ⟨Services, Services, _, rfl, rfl, rfl, hcalls _ _ _ _ _⟩
    · subst hxs
      rw [initAndStartImpl_startFail svc pre sk post ctx st e hI hpre hk]
      exact ⟨pre ++ sk :: post, pre, _, rfl, rfl, rfl, hcalls _ _ _ _ _⟩
  · subst hxs
    rw [initAndStartImpl_initFail svc pre sk post ctx st e hpre hk]
    refine ⟨pre, [], initCalls svc (pre ++ [sk]) ctx st.world, rfl, by simp, rfl, ?_⟩
    intro c hc
    exact Or.inl (initCalls_hook svc _ _ _ c hc)

/-! ## Helper lemmas on counting calls -/

theorem made_append {S Ctx : Type} [DecidableEq S] (h : Hook) (s : S)
    (xs ys : List (Call S Ctx)) : made h s (xs ++ ys) = made h s xs + made h s ys := by
  simp [made, List.countP_append]

theorem made_callsOf_same {S Ctx : Type} [DecidableEq S] (h : Hook) (s : S) (c : Ctx)
    (xs : List S) : made h s (callsOf h c xs : List (Call S Ctx)) = xs.count s := by
  induction xs with
  | nil => rfl
  | cons x xs ih =>
    have hcons : (callsOf h c (x :: xs) : List (Call S Ctx))
        = { hook := h, service := x, ctx := c } :: callsOf h c xs := rfl
    rw [hcons]
    unfold made at ih ⊢
    rw [List.countP_cons, ih, List.count_cons]
    by_cases hx : x = s <;> simp [hx]

theorem made_eq_zero {S Ctx : Type} [DecidableEq S] (h : Hook) (s : S)
    (xs : List (Call S Ctx)) (hx : ∀ e ∈ xs, e.hook ≠ h) : made h s xs = 0 := by
  unfold made
  rw [List.countP_eq_zero]
  intro e he
  simp [hx e he]

theorem made_callsOf_other {S Ctx : Type} [DecidableEq S] (h k : Hook) (hk : k ≠ h) (s : S)
    (c : Ctx) (xs : List S) : made h s (callsOf k c xs : List (Call S Ctx)) = 0 := by
  apply made_eq_zero
  intro e he
  simp only [callsOf, List.mem_map] at he
  obtain ⟨_, _, rfl⟩ := he
  exact hk

theorem made_initCalls {S Ctx Err W : Type} [DecidableEq S] (svc : IService S Ctx Err W)
    (h : Hook) (hh : h ≠ Hook.Init) (s : S) (xs : List S) (c : Ctx) (w : W) :
    made h s (initCalls svc xs c w) = 0 := by
  apply made_eq_zero
  intro e he
  rw [initCalls_hook svc xs c w e he]
  exact fun hEq => hh hEq.symm

theorem count_stopOrder {S : Type} [DecidableEq S] (sched : List Nat) (l : List S) (s : S) :
    (stopOrder sched l).count s = l.count s :=
  (stopOrder_perm sched l).count_eq s

/-! ## Helper lemmas on replaying a log -/

theorem replayWorld_append {S Ctx Err W : Type} (svc : IService S Ctx Err W)
    (xs ys : List (Call S Ctx)) (w : W) :
    replayWorld svc (xs ++ ys) w = replayWorld svc ys (replayWorld svc xs w) := by
  induction xs generalizing w with
  | nil => rfl
  | cons x xs ih =>
    rw [List.cons_append]
    simp only [replayWorld]
    exact ih _

theorem succeeded_append {S Ctx Err W : Type} [DecidableEq S] (svc : IService S Ctx Err W)
    (h : Hook) (s : S) (xs ys : List (Call S Ctx)) (w : W) :
    succeeded svc h s (xs ++ ys) w
      = succeeded svc h s xs w + succeeded svc h s ys (replayWorld svc xs w) := by
  induction xs generalizing w with
  | nil => simp [succeeded, replayWorld]
  | cons x xs ih =>
    rw [List.cons_append]
    simp only [succeeded, replayWorld]
    rw [ih]
    omega

theorem succeeded_eq_zero {S Ctx Err W : Type} [DecidableEq S] (svc : IService S Ctx Err W)
    (h : Hook) (s : S) (xs : List (Call S Ctx)) (w : W) (hx : ∀ e ∈ xs, e.hook ≠ h) :
    succeeded svc h s xs w = 0 := by
  induction xs generalizing w with
  | nil => rfl
  | cons x xs ih =>
    have hx0 : x.hook ≠ h := hx x (List.mem_cons_self _ _)
    simp only [succeeded]
    rw [ih _ (fun e he => hx e (List.mem_cons_of_mem _ he))]
    simp [hx0]

theorem replayWorld_initCalls {S Ctx Err W : Type} (svc : IService S Ctx Err W)
    (xs : List S) (c : Ctx) (w : W) :
    replayWorld svc (initCalls svc xs c w) w = (afterInits svc xs c w).2 := by
  induction xs generalizing c w with
  | nil => rfl
  | cons x xs ih =>
    simp only [initCalls, replayWorld, afterInits, applyCall]
    exact ih _ _

theorem replayWorld_callsOf_Start {S Ctx Err W : Type} (svc : IService S Ctx Err W)
    (c : Ctx) (xs : List S) (w : W) :
    replayWorld svc (callsOf Hook.Start c xs) w = afterStarts svc c xs w := by
  induction xs generalizing w with
  | nil => rfl
  | cons x xs ih =>
    simp only [callsOf, List.map_cons, replayWorld, afterStarts, applyCall]
    exact ih _

theorem replayWorld_callsOf_Stop {S Ctx Err W : Type} (svc : IService S Ctx Err W)
    (c : Ctx) (xs : List S) (w : W) :
    replayWorld svc (callsOf Hook.Stop c xs) w = afterStops svc c xs w := by
  induction xs generalizing w with
  | nil => rfl
  | cons x xs ih =>
    simp only [callsOf, List.map_cons, replayWorld, afterStops, applyCall]
    exact ih _

theorem replayWorld_callsOf_Finit {S Ctx Err W : Type} (svc : IService S Ctx Err W)
    (c : Ctx) (xs : List S) (w : W) :
    replayWorld svc (callsOf Hook.Finit c xs) w = afterFinits svc c xs w := by
  induction xs generalizing w with
  | nil => rfl
  | cons x xs ih =>
    simp only [callsOf, List.map_cons, replayWorld, afterFinits, applyCall]
    exact ih _

/-- In the log of a run of successful `Init`s, each service has as many
successful `Init`s as it has occurrences in the list. -/
theorem succeeded_initCalls {S Ctx Err W : Type} [DecidableEq S] (svc : IService S Ctx Err W)
    (s : S) (xs : List S) (c : Ctx) (w : W) (h : InitsSucceed svc xs c w) :
    succeeded svc Hook.Init s (initCalls svc xs c w) w = xs.count s := by
  induction xs generalizing c w with
  | nil => rfl
  | cons x xs ih =>
    obtain ⟨h1, h2⟩ := h
    simp only [initCalls, succeeded, applyCall, h1, Option.isNone_none, List.count_cons]
    rw [ih _ _ h2]
    by_cases hx : x = s
    · simp [hx]
      omega
    · simp [hx]

/-- In the log of a run of successful `Start`s, each service has as many
successful `Start`s as it has occurrences in the list. -/
theorem succeeded_callsOf_Start {S Ctx Err W : Type} [DecidableEq S]
    (svc : IService S Ctx Err W) (s : S) (c : Ctx) (xs : List S) (w : W)
    (h : StartsSucceed svc c xs w) :
    succeeded svc Hook.Start s (callsOf Hook.Start c xs) w = xs.count s := by
  induction xs generalizing w with
  | nil => rfl
  | cons x xs ih =>
    obtain ⟨h1, h2⟩ := h
    simp only [callsOf, List.map_cons, succeeded, applyCall, h1, Option.isNone_none,
      List.count_cons]
    have := ih _ h2
    simp only [callsOf] at this
    rw [this]
    by_cases hx : x = s
    · simp [hx]
      omega
    · simp [hx]

theorem made_take_le {S Ctx : Type} [DecidableEq S] (h : Hook) (s : S)
    (xs : List (Call S Ctx)) (m : Nat) : made h s (xs.take m) ≤ made h s xs :=
  (List.take_sublist m xs).countP_le _

/-! ## Helper lemmas: the bookkeeping invariant -/

theorem Balanced_fresh {S Ctx Err W : Type} [DecidableEq S] (svc : IService S Ctx Err W)
    (w : W) : Balanced svc w (Tracking.fresh w : Tracking S Ctx W) where
  world_eq := rfl
  stops := fun _ => rfl
  finits := fun _ => rfl
  safe := fun _ _ => by simp [Tracking.fresh, made, succeeded]

/-- The invariant survives the addition of calls `ys` to the log when the
memory follows the calls, the tracking lists account for the successes and for
the Stops and Finits among `ys`, and `ys` does not stop or finalize a service
more often than the lists allow. -/
theorem Balanced_append {S Ctx Err W : Type} [DecidableEq S] (svc : IService S Ctx Err W)
    (w0 : W) (st st2 : Tracking S Ctx W) (ys : List (Call S Ctx))
    (hb : Balanced svc w0 st)
    (hcalls : st2.calls = st.calls ++ ys)
    (hworld : st2.world = replayWorld svc ys st.world)
    (hS : ∀ s, made Hook.Stop s ys + st2.started.count s
      = st.started.count s + succeeded svc Hook.Start s ys st.world)
    (hF : ∀ s, made Hook.Finit s ys + st2.inited.count s
      = st.inited.count s + succeeded svc Hook.Init s ys st.world)
    (hSle : ∀ s, made Hook.Stop s ys ≤ st.started.count s)
    (hFle : ∀ s, made Hook.Finit s ys ≤ st.inited.count s) :
    Balanced svc w0 st2 where
  world_eq := by rw [hworld, hcalls, replayWorld_append, ← hb.world_eq]
  stops := fun s => by
    rw [hcalls, made_append, succeeded_append, ← hb.world_eq]
    have h1 := hb.stops s
    have h2 := hS s
    omega
  finits := fun s => by
    rw [hcalls, made_append, succeeded_append, ← hb.world_eq]
    have h1 := hb.finits s
    have h2 := hF s
    omega
  safe := fun n s => by
    rw [hcalls, List.take_append_eq_append_take]
    rcases Nat.lt_or_ge n st.calls.length with hn | hn
    · have h0 : n - st.calls.length = 0 := by omega
      rw [h0, List.take_zero, List.append_nil]
      exact hb.safe n s
    · rw [List.take_of_length_le hn]
      simp only [made_append, succeeded_append, ← hb.world_eq]
      have h1 := hb.stops s
      have h2 := hb.finits s
      have h3 := made_take_le Hook.Stop s ys (n - st.calls.length)
      have h4 := made_take_le Hook.Finit s ys (n - st.calls.length)
      have h5 := hSle s
      have h6 := hFle s
      constructor <;> omega

theorem callsOf_hook {S Ctx : Type} (h : Hook) (c : Ctx) (xs : List S) (e : Call S Ctx)
    (he : e ∈ callsOf h c xs) : e.hook = h := by
  simp only [callsOf, List.mem_map] at he
  obtain ⟨_, _, rfl⟩ := he
  rfl

/-- A log of `Init` calls followed by `Start` calls holds no `Stop` and no
`Finit`. -/
theorem made_initStart_log {S Ctx Err W : Type} [DecidableEq S] (svc : IService S Ctx Err W)
    (h : Hook) (hI : h ≠ Hook.Init) (hS : h ≠ Hook.Start) (s : S)
    (xs : List S) (c : Ctx) (w : W) (c2 : Ctx) (zs : List S) :
    made h s (initCalls svc xs c w ++ callsOf Hook.Start c2 zs) = 0 := by
  rw [made_append, made_initCalls svc h hI, made_callsOf_other h Hook.Start (Ne.symm hS)]

theorem succeeded_Init_initStart_log {S Ctx Err W : Type} [DecidableEq S]
    (svc : IService S Ctx Err W) (s : S) (xs : List S) (c : Ctx) (w : W) (c2 : Ctx)
    (zs : List S) :
    succeeded svc Hook.Init s (initCalls svc xs c w ++ callsOf Hook.Start c2 zs) w
      = succeeded svc Hook.Init s (initCalls svc xs c w) w := by
  rw [succeeded_append, succeeded_eq_zero svc Hook.Init s (callsOf Hook.Start c2 zs) _
    (fun e he => by rw [callsOf_hook _ _ _ e he]; decide)]
  rfl

theorem succeeded_Start_initStart_log {S Ctx Err W : Type} [DecidableEq S]
    (svc : IService S Ctx Err W) (s : S) (xs : List S) (c : Ctx) (w : W) (c2 : Ctx)
    (zs : List S) :
    succeeded svc Hook.Start s (initCalls svc xs c w ++ callsOf Hook.Start c2 zs) w
      = succeeded svc Hook.Start s (callsOf Hook.Start c2 zs) (afterInits svc xs c w).2 := by
  rw [succeeded_append, succeeded_eq_zero svc Hook.Start s (initCalls svc xs c w) w
    (fun e he => by rw [initCalls_hook svc _ _ _ e he]; decide), replayWorld_initCalls]
  omega

/-- In the log of a run of `Init`s stopped by a first failure, each service
has as many successful `Init`s as it has occurrences before the failing one. -/
theorem succeeded_initCalls_fail {S Ctx Err W : Type} [DecidableEq S]
    (svc : IService S Ctx Err W) (s : S) (pre : List S) (sk : S) (c : Ctx) (w : W) (e : Err)
    (h : InitsSucceed svc pre c w)
    (hk : (svc.Init sk (afterInits svc pre c w).1 (afterInits svc pre c w).2).err = some e) :
    succeeded svc Hook.Init s (initCalls svc (pre ++ [sk]) c w) w = pre.count s := by
  rw [initCalls_append, succeeded_append, succeeded_initCalls svc s pre c w h,
    replayWorld_initCalls]
  simp [initCalls, succeeded, applyCall, hk]

/-- In the log of a run of `Start`s stopped by a first failure, each service
has as many successful `Start`s as it has occurrences before the failing one. -/
theorem succeeded_callsOf_Start_fail {S Ctx Err W : Type} [DecidableEq S]
    (svc : IService S Ctx Err W) (s : S) (c : Ctx) (pre : List S) (sk : S) (w : W) (e : Err)
    (h : StartsSucceed svc c pre w)
    (hk : (svc.Start sk c (afterStarts svc c pre w)).err = some e) :
    succeeded svc Hook.Start s (callsOf Hook.Start c (pre ++ [sk])) w = pre.count s := by
  have hsplit : (callsOf Hook.Start c (pre ++ [sk]) : List (Call S Ctx))
      = callsOf Hook.Start c pre ++ callsOf Hook.Start c [sk] := by
    simp [callsOf]
  rw [hsplit, succeeded_append, succeeded_callsOf_Start svc s c pre w h,
    replayWorld_callsOf_Start]
  simp [callsOf, succeeded, applyCall, hk]

theorem replayWorld_initCalls_fail {S Ctx Err W : Type} (svc : IService S Ctx Err W)
    (pre : List S) (sk : S) (c : Ctx) (w : W) :
    replayWorld svc (initCalls svc (pre ++ [sk]) c w) w
      = (svc.Init sk (afterInits svc pre c w).1 (afterInits svc pre c w).2).world := by
  rw [replayWorld_initCalls, afterInits_append]
  rfl

theorem replayWorld_callsOf_Start_fail {S Ctx Err W : Type} (svc : IService S Ctx Err W)
    (c : Ctx) (pre : List S) (sk : S) (w : W) :
    replayWorld svc (callsOf Hook.Start c (pre ++ [sk])) w
      = (svc.Start sk c (afterStarts svc c pre w)).world := by
  rw [replayWorld_callsOf_Start, afterStarts_append]
  rfl

/-- `initAndStartImpl` keeps the bookkeeping invariant, whatever the hooks
return. -/
theorem Balanced_initAndStartImpl {S Ctx Err W : Type} [DecidableEq S]
    (svc : IService S Ctx Err W) (w0 : W) (Services : List S) (ctx : Ctx)
    (st : Tracking S Ctx W) (hb : Balanced svc w0 st) :
    Balanced svc w0 (initAndStartImpl svc Services ctx st).state := by
  rcases InitsSucceed_or_fails svc Services ctx st.world with hI | ⟨pre, sk, post, e, hxs, hpre, hk⟩
  · rcases StartsSucceed_or_fails svc (afterInits svc Services ctx st.world).1 Services
      (afterInits svc Services ctx st.world).2 with hS | ⟨pre, sk, post, e, hxs, hpre, hk⟩
    · rw [initAndStartImpl_ok svc Services ctx st hI hS]
      refine Balanced_append svc w0 st _ _ hb rfl ?_ ?_ ?_ ?_ ?_
      · rw [replayWorld_append, replayWorld_initCalls, replayWorld_callsOf_Start]
      · intro s
        rw [made_initStart_log svc Hook.Stop (by decide) (by decide),
          succeeded_Start_initStart_log, succeeded_callsOf_Start svc s _ Services _ hS]
        simp only [List.count_append]
        omega
      · intro s
        rw [made_initStart_log svc Hook.Finit (by decide) (by decide),
          succeeded_Init_initStart_log, succeeded_initCalls svc s Services ctx st.world hI]
        simp only [List.count_append]
        omega
      · intro s
        rw [made_initStart_log svc Hook.Stop (by decide) (by decide)]
        omega
      · intro s
        rw [made_initStart_log svc Hook.Finit (by decide) (by decide)]
        omega
    · subst hxs
      rw [initAndStartImpl_startFail svc pre sk post ctx st e hI hpre hk]
      refine Balanced_append svc w0 st _ _ hb rfl ?_ ?_ ?_ ?_ ?_
      · rw [replayWorld_append, replayWorld_initCalls, replayWorld_callsOf_Start_fail]
      · intro s
        rw [made_initStart_log svc Hook.Stop (by decide) (by decide),
          succeeded_Start_initStart_log, succeeded_callsOf_Start_fail svc s _ pre sk _ e hpre hk]
        simp only [List.count_append]
        omega
      · intro s
        rw [made_initStart_log svc Hook.Finit (by decide) (by decide),
          succeeded_Init_initStart_log,
          succeeded_initCalls svc s (pre ++ sk :: post) ctx st.world hI]
        simp only [List.count_append]
        omega
      · intro s
        rw [made_initStart_log svc Hook.Stop (by decide) (by decide)]
        omega
      · intro s
        rw [made_initStart_log svc Hook.Finit (by decide) (by decide)]
        omega
  · subst hxs
    rw [initAndStartImpl_initFail svc pre sk post ctx st e hpre hk]
    refine Balanced_append svc w0 st _ _ hb rfl ?_ ?_ ?_ ?_ ?_
    · rw [replayWorld_initCalls_fail]
    · intro s
      rw [made_initCalls svc Hook.Stop (by decide),
        succeeded_eq_zero svc Hook.Start s (initCalls svc (pre ++ [sk]) ctx st.world) st.world
          (fun c hc => by rw [initCalls_hook svc _ _ _ c hc]; decide)]
      simp
    · intro s
      rw [made_initCalls svc Hook.Finit (by decide),
        succeeded_initCalls_fail svc s pre sk ctx st.world e hpre hk]
      simp only [List.count_append]
      omega
    · intro s
      rw [made_initCalls svc Hook.Stop (by decide)]
      omega
    · intro s
      rw [made_initCalls svc Hook.Finit (by decide)]
      omega

/-- `stopAndFinitImpl` keeps the bookkeeping invariant, whatever the order of
the Stop calls. -/
theorem Balanced_stopAndFinitImpl {S Ctx Err W : Type} [DecidableEq S]
    (svc : IService S Ctx Err W) (w0 : W) (sched : List Nat) (ctx : Ctx)
    (st : Tracking S Ctx W) (hb : Balanced svc w0 st) :
    Balanced svc w0 (stopAndFinitImpl svc sched ctx st) := by
  rw [stopAndFinitImpl_eq]
  have hStop : ∀ s, made Hook.Stop s (callsOf Hook.Stop ctx (stopOrder sched st.started)
      ++ callsOf Hook.Finit ctx st.inited.reverse : List (Call S Ctx)) = st.started.count s := by
    intro s
    rw [made_append, made_callsOf_same, made_callsOf_other Hook.Stop Hook.Finit (by decide),
      count_stopOrder]
    rfl
  have hFinit : ∀ s, made Hook.Finit s (callsOf Hook.Stop ctx (stopOrder sched st.started)
      ++ callsOf Hook.Finit ctx st.inited.reverse : List (Call S Ctx)) = st.inited.count s := by
    intro s
    rw [made_append, made_callsOf_same, made_callsOf_other Hook.Finit Hook.Stop (by decide),
      List.count_reverse]
    omega
  have hNone : ∀ (h : Hook) (s : S) (w : W), h = Hook.Init ∨ h = Hook.Start →
      succeeded svc h s (callsOf Hook.Stop ctx (stopOrder sched st.started)
        ++ callsOf Hook.Finit ctx st.inited.reverse) w = 0 := by
    intro h s w hh
    apply succeeded_eq_zero
    intro e he
    rcases List.mem_append.mp he with he | he
    · rw [callsOf_hook _ _ _ e he]
      rcases hh with rfl | rfl <;> decide
    · rw [callsOf_hook _ _ _ e he]
      rcases hh with rfl | rfl <;> decide
  refine Balanced_append svc w0 st _ _ hb rfl ?_ ?_ ?_ ?_ ?_
  · rw [replayWorld_append, replayWorld_callsOf_Stop, replayWorld_callsOf_Finit]
  · intro s
    rw [hStop, hNone Hook.Start s _ (Or.inr rfl)]
    simp
  · intro s
    rw [hFinit, hNone Hook.Init s _ (Or.inl rfl)]
    simp
  · intro s
    rw [hStop]
  · intro s
    rw [hFinit]

/-- Every sequence of calls of the host keeps the bookkeeping invariant. -/
theorem Balanced_runOps {S Ctx Err W : Type} [DecidableEq S]
    (svc : IService S Ctx Err W) (w0 : W) (ops : List (Op S Ctx))
    (st : Tracking S Ctx W) (hb : Balanced svc w0 st) :
    Balanced svc w0 (runOps svc ops st) := by
  induction ops generalizing st with
  | nil => exact hb
  | cons op ops ih =>
    cases op with
    | InitAndStart Services ctx =>
      exact ih _ (Balanced_initAndStartImpl svc w0 Services ctx st hb)
    | StopAndFinit sched ctx =>
      exact ih _ (Balanced_stopAndFinitImpl svc w0 sched ctx st hb)

/-! ## Helper lemmas: the `State` of `myService` along a log -/

theorem made_cons {S Ctx : Type} [DecidableEq S] (h : Hook) (s : S) (e : Call S Ctx)
    (rest : List (Call S Ctx)) : made h s (e :: rest) = made h s rest + madeOne h s e := by
  unfold made madeOne
  rw [List.countP_cons]
  simp

theorem succeeded_cons {S Ctx Err W : Type} [DecidableEq S] (svc : IService S Ctx Err W)
    (h : Hook) (s : S) (e : Call S Ctx) (rest : List (Call S Ctx)) (w : W) :
    succeeded svc h s (e :: rest) w
      = succeededOne svc h s e w + succeeded svc h s rest (applyCall svc e w).2 := rfl

/-- One call on a `myService`: `State` goes up by one on a successful Init or
Start of the service, down by one on a Stop or Finit of it, and is otherwise
unchanged. -/
theorem myService_State_step (e : Call Nat (Context String Bool)) (h : Heap) (p : Nat) :
    ((applyCall myServiceImpl e h).2 p).State + (madeOne Hook.Stop p e : Int)
        + (madeOne Hook.Finit p e : Int)
      = (h p).State + (succeededOne myServiceImpl Hook.Init p e h : Int)
        + (succeededOne myServiceImpl Hook.Start p e h : Int) := by
  obtain ⟨hook, sv, c⟩ := e
  by_cases hp : sv = p
  · subst hp
    cases hook
    · by_cases hf : (h sv).Failinit = true <;>
        simp [applyCall, myServiceImpl, myService.Init, madeOne, succeededOne, hf]
    · by_cases hf : (h sv).Failstart = true <;>
        simp [applyCall, myServiceImpl, myService.Start, madeOne, succeededOne, hf]
    · simp [applyCall, myServiceImpl, myService.Stop, madeOne, succeededOne]
    · simp [applyCall, myServiceImpl, myService.Finit, madeOne, succeededOne]
  · have hp2 : p ≠ sv := fun h => hp h.symm
    cases hook
    · by_cases hf : (h sv).Failinit = true <;>
        simp [applyCall, myServiceImpl, myService.Init, madeOne, succeededOne, hf, hp, hp2]
    · by_cases hf : (h sv).Failstart = true <;>
        simp [applyCall, myServiceImpl, myService.Start, madeOne, succeededOne, hf, hp, hp2]
    · simp [applyCall, myServiceImpl, myService.Stop, madeOne, succeededOne, hp, hp2]
    · simp [applyCall, myServiceImpl, myService.Finit, madeOne, succeededOne, hp, hp2]

/-- Accounting of `State` for `myService`: along any log, the `State` of the
service at address `p` is its initial `State` plus its successful Inits and
Starts minus its Stops and Finits. -/
theorem myService_State_replay (calls : List (Call Nat (Context String Bool))) (h : Heap)
    (p : Nat) :
    ((replayWorld myServiceImpl calls h) p).State + (made Hook.Stop p calls : Int)
        + (made Hook.Finit p calls : Int)
      = (h p).State + (succeeded myServiceImpl Hook.Init p calls h : Int)
        + (succeeded myServiceImpl Hook.Start p calls h : Int) := by
  induction calls generalizing h with
  | nil => simp [replayWorld, made, succeeded]
  | cons e rest ih =>
    have ih2 := ih (applyCall myServiceImpl e h).2
    have hstep := myService_State_step e h p
    simp only [replayWorld, succeeded_cons, made_cons, Nat.cast_add]
    omega

/-! ## Helper lemmas on the registry and the resolver of godif -/

theorem godif_Require_nodup {Ty Val : Type} (reg : godif.Registry Ty Val)
    (r : godif.Requirement Ty)
    (h : (reg.requirements.map godif.Requirement.slot).Nodup) :
    ((godif.Require reg r).requirements.map godif.Requirement.slot).Nodup := by
  unfold godif.Require
  split
  · exact h
  · rename_i hany
    simp only [List.map_append, List.map_cons, List.map_nil]
    rw [List.nodup_append]
    refine ⟨h, List.nodup_singleton _, ?_⟩
    intro a ha hb
    rw [List.mem_singleton] at hb
    subst hb
    apply hany
    obtain ⟨q, hq, hqs⟩ := List.mem_map.mp ha
    exact List.any_eq_true.mpr ⟨q, hq, by simp [hqs]⟩

theorem godif_declare_nodup {Ty Val : Type} (reg : godif.Registry Ty Val)
    (d : godif.Decl Ty Val)
    (h : (reg.requirements.map godif.Requirement.slot).Nodup) :
    ((godif.declare reg d).requirements.map godif.Requirement.slot).Nodup := by
  cases d with
  | Require r => exact godif_Require_nodup reg r h
  | Provide p => exact h
  | ProvideSliceElement slot value => exact h

/-- No slot is recorded twice in a registry built through the declaration
API. -/
theorem godif_declareAll_nodup {Ty Val : Type} (ds : List (godif.Decl Ty Val)) :
    ((godif.declareAll ds).requirements.map godif.Requirement.slot).Nodup := by
  have key : ∀ (ds : List (godif.Decl Ty Val)) (reg : godif.Registry Ty Val),
      (reg.requirements.map godif.Requirement.slot).Nodup →
      ((ds.foldl godif.declare reg).requirements.map godif.Requirement.slot).Nodup := by
    intro ds
    induction ds with
    | nil => exact fun _ h => h
    | cons d ds ih => exact fun reg h => ih _ (godif_declare_nodup reg d h)
  exact key ds godif.Reset List.nodup_nil

theorem godif_singular_nodup {Ty Val : Type} (reg : godif.Registry Ty Val)
    (h : (reg.requirements.map godif.Requirement.slot).Nodup) :
    ((godif.singular reg).map godif.Requirement.slot).Nodup :=
  h.sublist ((List.filter_sublist _).map _)

/-- In a list without two elements of the same key, if `r` yields `e`, `e`
passes the test, and only elements with the key of `r` yield something that
passes, then `e` is all that passes. -/
theorem filter_filterMap_singleton {α β κ : Type} (key : α → κ) (f : α → Option β)
    (P : β → Bool) (L : List α) (r : α) (e : β)
    (hn : (L.map key).Nodup) (hr : r ∈ L) (hfr : f r = some e) (hP : P e = true)
    (hkey : ∀ q ∈ L, ∀ b, f q = some b → P b = true → key q = key r) :
    (L.filterMap f).filter P = [e] := by
  have hnone : ∀ (M : List α), (∀ q ∈ M, key q ≠ key r) →
      (∀ q ∈ M, ∀ b, f q = some b → P b = true → key q = key r) →
      (M.filterMap f).filter P = [] := by
    intro M hM hk
    rw [List.filter_eq_nil_iff]
    intro b hb hPb
    obtain ⟨q, hq, hfq⟩ := List.mem_filterMap.mp hb
    exact hM q hq (hk q hq b hfq hPb)
  induction L with
  | nil => simp at hr
  | cons a L ih =>
    rw [List.map_cons, List.nodup_cons] at hn
    obtain ⟨ha, hn⟩ := hn
    by_cases har : key a = key r
    · have hrL : r ∉ L := fun h => ha (har ▸ List.mem_map_of_mem key h)
      have hra : r = a := by
        rcases List.mem_cons.mp hr with h | h
        · exact h
        · exact absurd h hrL
      subst hra
      have htail := hnone L
        (fun q hq hqk => ha (hqk ▸ List.mem_map_of_mem key hq))
        (fun q hq => hkey q (List.mem_cons_of_mem _ hq))
      simp [List.filterMap_cons, hfr, List.filter_cons, hP, htail]
    · have hrL : r ∈ L := by
        rcases List.mem_cons.mp hr with h | h
        · exact absurd (h ▸ rfl) har
        · exact h
      have ih2 := ih hn hrL (fun q hq => hkey q (List.mem_cons_of_mem _ hq))
      cases hfa : f a with
      | none => simp [List.filterMap_cons, hfa, ih2]
      | some b =>
        have hPb : P b = false := by
          cases hb : P b with
          | false => rfl
          | true => exact absurd (hkey a (List.mem_cons_self _ _) b hfa hb) har
        simp [List.filterMap_cons, hfa, List.filter_cons, hPb, ih2]

theorem godif_singularError_slot {Ty Val : Type} [DecidableEq Ty]
    (reg : godif.Registry Ty Val) (q : godif.Requirement Ty) (b : godif.Error) (slot : Nat)
    (h : godif.singularError reg q = some b) (hb : b.concerns slot = true) : q.slot = slot := by
  unfold godif.singularError at h
  split at h
  · cases h
    simpa [godif.Error.concerns] using hb
  · cases h
  · cases h
    simpa [godif.Error.concerns] using hb

theorem godif_candidate_slot {Ty Val : Type} [DecidableEq Ty]
    (reg : godif.Registry Ty Val) (q : godif.Requirement Ty) (c : Nat × godif.Provision Ty Val)
    (h : godif.candidate reg q = some c) : c.1 = q.slot ∧ godif.matching reg q = [c.2] := by
  unfold godif.candidate at h
  split at h
  · rename_i p hp
    cases h
    exact ⟨rfl, hp⟩
  · cases h

theorem godif_bindPass_subset {Ty Val : Type} (reg : godif.Registry Ty Val)
    (cands : List (Nat × godif.Provision Ty Val)) (bound : List Nat)
    (h : ∀ s ∈ bound, s ∈ cands.map Prod.fst) :
    ∀ s ∈ godif.bindPass reg cands bound, s ∈ cands.map Prod.fst := by
  intro s hs
  unfold godif.bindPass at hs
  rcases List.mem_append.mp hs with hs | hs
  · exact h s hs
  · obtain ⟨c, hc, rfl⟩ := List.mem_map.mp hs
    exact List.mem_map_of_mem _ (List.mem_of_mem_filter hc)

/-- Only slots of candidate bindings are ever bound. -/
theorem godif_bindAll_subset {Ty Val : Type} (reg : godif.Registry Ty Val)
    (cands : List (Nat × godif.Provision Ty Val)) (fuel : Nat) (bound : List Nat)
    (h : ∀ s ∈ bound, s ∈ cands.map Prod.fst) :
    ∀ s ∈ godif.bindAll reg cands fuel bound, s ∈ cands.map Prod.fst := by
  induction fuel generalizing bound with
  | zero => exact h
  | succ n ih =>
    unfold godif.bindAll
    split
    · exact h
    · exact ih _ (godif_bindPass_subset reg cands bound h)

/-- The slot of a singular requirement without a matching provision is not the
slot of a candidate binding. -/
theorem godif_unprovided_not_candidate {Ty Val : Type} [DecidableEq Ty]
    (reg : godif.Registry Ty Val) (r : godif.Requirement Ty)
    (hn : (reg.requirements.map godif.Requirement.slot).Nodup)
    (hr : r ∈ godif.singular reg) (hm : godif.matching reg r = []) :
    r.slot ∉ ((godif.singular reg).filterMap (godif.candidate reg)).map Prod.fst := by
  intro hmem
  obtain ⟨c, hc, hcs⟩ := List.mem_map.mp hmem
  obtain ⟨q, hq, hqc⟩ := List.mem_filterMap.mp hc
  obtain ⟨h1, h2⟩ := godif_candidate_slot reg q c hqc
  have hqr : q = r :=
    List.inj_on_of_nodup_map (godif_singular_nodup reg hn) hq hr (by rw [← h1, hcs])
  rw [hqr, hm] at h2
  cases h2

theorem godif_filter_cyclic (slot : Nat) (u : List Nat) (h : slot ∉ u) :
    [godif.Error.CyclicDependency u].filter (fun e => e.concerns slot) = [] := by
  simp [godif.Error.concerns, h]

/-! ## Helper lemmas on the lifecycle of package services -/

theorem services_afterStarts_append {S Ctx Err P W : Type}
    (svc : services.IService S Ctx Err P W) (xs ys : List S) (c : Ctx) (w : W) :
    services.afterStarts svc (xs ++ ys) c w
      = services.afterStarts svc ys (services.afterStarts svc xs c w).1
          (services.afterStarts svc xs c w).2 := by
  induction xs generalizing c w with
  | nil => rfl
  | cons x xs ih =>
    rw [List.cons_append]
    simp only [services.afterStarts]
    split <;> exact ih _ _

theorem services_afterStarts_cons {S Ctx Err P W : Type}
    (svc : services.IService S Ctx Err P W) (x : S) (xs : List S) (c : Ctx) (w : W) :
    services.afterStarts svc (x :: xs) c w
      = services.afterStarts svc xs (services.afterStarts svc [x] c w).1
          (services.afterStarts svc [x] c w).2 :=
  services_afterStarts_append svc [x] xs c w

/-- What a successful `Start` returned is what `afterStarts` records. -/
theorem services_ok_returns {S Ctx Err P W : Type}
    (svc : services.IService S Ctx Err P W) (x : S) (c : Ctx) (w : W)
    (h : (svc.Start x c w).1.ok = true) :
    svc.Start x c w
      = (services.Ending.returns (services.afterStarts svc [x] c w).1 none,
          (services.afterStarts svc [x] c w).2) := by
  simp only [services.afterStarts]
  cases hs : svc.Start x c w with
  | mk ending w2 =>
    rw [hs] at h
    cases ending with
    | returns newCtx err =>
      cases err with
      | none => rfl
      | some e => simp [services.Ending.ok] at h
    | panics data => simp [services.Ending.ok] at h

theorem services_startCalls_append {S Ctx Err P W : Type}
    (svc : services.IService S Ctx Err P W) (xs ys : List S) (c : Ctx) (w : W) :
    services.startCalls svc (xs ++ ys) c w
      = services.startCalls svc xs c w
          ++ services.startCalls svc ys (services.afterStarts svc xs c w).1
              (services.afterStarts svc xs c w).2 := by
  induction xs generalizing c w with
  | nil => rfl
  | cons x xs ih =>
    rw [List.cons_append]
    simp only [services.startCalls, List.cons_append]
    rw [ih, services_afterStarts_cons svc x xs]

theorem services_startCalls_sig {S Ctx Err P W : Type}
    (svc : services.IService S Ctx Err P W) (xs : List S) (c : Ctx) (w : W) :
    (services.startCalls svc xs c w).map Call.sig = xs.map fun s => (Hook.Start, s) := by
  induction xs generalizing c w with
  | nil => rfl
  | cons x xs ih => simp only [services.startCalls, List.map_cons, ih, Call.sig]

/-- While the `Start`s succeed the loop of `Start` walks on. -/
theorem services_startEach_append {S Ctx Err P W : Type}
    (svc : services.IService S Ctx Err P W) (xs ys : List S) (c : Ctx) (st : List S)
    (cs : List (Call S Ctx)) (w : W) (h : services.StartsSucceed svc xs c w) :
    services.startEach svc (xs ++ ys)
        { ctx := c, startedServices := st, err := none, calls := cs, world := w }
      = services.startEach svc ys
          { ctx := (services.afterStarts svc xs c w).1, startedServices := st ++ xs,
            err := none, calls := cs ++ services.startCalls svc xs c w,
            world := (services.afterStarts svc xs c w).2 } := by
  induction xs generalizing c st cs w with
  | nil => simp [services.afterStarts, services.startCalls]
  | cons x xs ih =>
    obtain ⟨h1, h2⟩ := h
    rw [List.cons_append]
    simp only [services.startEach]
    rw [services_ok_returns svc x c w h1]
    simp only []
    rw [ih _ _ _ _ h2, services_afterStarts_cons svc x xs]
    simp [services.startCalls]

/-- The free function `Start` when every `Start` of the services succeeds. -/
theorem services_Start_ok {S Ctx Err P W : Type}
    (svc : services.IService S Ctx Err P W) (xs : List S) (c : Ctx) (verbose : Bool)
    (cs : List (Call S Ctx)) (w : W) (h : services.StartsSucceed svc xs c w) :
    services.Start svc c xs verbose cs w
      = { ctx := (services.afterStarts svc xs c w).1, startedServices := xs, err := none,
          calls := cs ++ services.startCalls svc xs c w,
          world := (services.afterStarts svc xs c w).2 } := by
  have := services_startEach_append svc xs [] c [] cs w h
  simpa [services.Start, services.startEach] using this

/-- The free function `Start` when the `Start` of `sk` is the first not to
succeed, because it panics. -/
theorem services_Start_panic {S Ctx Err P W : Type}
    (svc : services.IService S Ctx Err P W) (pre : List S) (sk : S) (post : List S) (c : Ctx)
    (verbose : Bool) (cs : List (Call S Ctx)) (w : W) (data : P)
    (h : services.StartsSucceed svc pre c w)
    (hk : (svc.Start sk (services.afterStarts svc pre c w).1
            (services.afterStarts svc pre c w).2).1 = services.Ending.panics data) :
    services.Start svc c (pre ++ sk :: post) verbose cs w
      = { ctx := (services.afterStarts svc pre c w).1, startedServices := pre,
          err := some (services.Error.EPanic data sk),
          calls := cs ++ services.startCalls svc (pre ++ [sk]) c w,
          world := (svc.Start sk (services.afterStarts svc pre c w).1
            (services.afterStarts svc pre c w).2).2 } := by
  unfold services.Start
  rw [services_startEach_append svc pre (sk :: post) c [] cs w h]
  simp only [services.startEach]
  cases hs : svc.Start sk (services.afterStarts svc pre c w).1
      (services.afterStarts svc pre c w).2 with
  | mk ending w2 =>
    rw [hs] at hk
    simp only at hk
    subst hk
    simp [services_startCalls_append, services.startCalls]

theorem services_Stop_eq {S Ctx Err P W : Type}
    (svc : services.IService S Ctx Err P W) (sched : List Nat) (ctx : Ctx) (xs : List S)
    (verbose : Bool) (cs : List (Call S Ctx)) (w : W) :
    (services.Stop svc sched ctx xs verbose cs w).1
      = cs ++ callsOf Hook.Stop ctx (stopOrder sched xs) := by
  unfold services.Stop
  generalize stopOrder sched xs = order
  induction order generalizing cs w with
  | nil => simp [callsOf]
  | cons x order ih =>
    rw [List.foldl_cons, ih]
    simp [callsOf]

theorem services_afterStarts_keeps {S Ctx Err P W K V : Type}
    (svc : services.IService S Ctx Err P W) (Value : Ctx → K → Option V)
    (xs : List S) (c : Ctx) (w : W) (h : services.StartsKeepKeys svc Value xs c w) (key : K)
    (hkey : Value c key ≠ none) :
    Value (services.afterStarts svc xs c w).1 key ≠ none := by
  induction xs generalizing c w with
  | nil => exact hkey
  | cons x xs ih =>
    rw [services_afterStarts_cons]
    exact ih _ _ h.2 (h.1 key hkey)

theorem services_StartsKeepKeys_append {S Ctx Err P W K V : Type}
    (svc : services.IService S Ctx Err P W) (Value : Ctx → K → Option V)
    (xs ys : List S) (c : Ctx) (w : W) :
    services.StartsKeepKeys svc Value (xs ++ ys) c w ↔
      services.StartsKeepKeys svc Value xs c w ∧
        services.StartsKeepKeys svc Value ys (services.afterStarts svc xs c w).1
          (services.afterStarts svc xs c w).2 := by
  induction xs generalizing c w with
  | nil => simp [services.StartsKeepKeys, services.afterStarts]
  | cons x xs ih =>
    rw [List.cons_append]
    simp only [services.StartsKeepKeys]
    rw [ih, and_assoc, services_afterStarts_cons svc x xs]

/-- A key held by the context reached after the `Start` of `s` is held by the
context reached after the last `Start`. -/
theorem services_afterStarts_keeps_service_keys {S Ctx Err P W K V : Type}
    (svc : services.IService S Ctx Err P W) (Value : Ctx → K → Option V)
    (xs : List S) (s : S) (ys : List S) (c : Ctx) (w : W)
    (h : services.StartsKeepKeys svc Value (xs ++ s :: ys) c w) (key : K)
    (hkey : Value (services.afterStarts svc (xs ++ [s]) c w).1 key ≠ none) :
    Value (services.afterStarts svc (xs ++ s :: ys) c w).1 key ≠ none := by
  have hsplit : xs ++ s :: ys = (xs ++ [s]) ++ ys := by simp
  rw [hsplit] at h ⊢
  rw [services_afterStarts_append]
  exact services_afterStarts_keeps svc Value ys _ _
    ((services_StartsKeepKeys_append svc Value _ _ c w).1 h).2 key hkey

/-- The `Start` of `MyService` only adds a key. -/
theorem MyService_Start_keeps (s : Nat) (ctx : Context String Int) (w : services.TestWorld)
    (key : String) (hkey : Context.Value ctx key ≠ none) :
    Context.Value (services.afterStarts services.MyServiceImpl [s] ctx w).1 key ≠ none := by
  simp only [services.afterStarts, services.MyServiceImpl, services.MyService.Start]
  split
  · rename_i newCtx err w2 heq
    split at heq
    · cases heq
      exact hkey
    · split at heq
      · cases heq
      · cases heq
        simp only [Context.WithValue, Context.Value]
        split
        · simp
        · exact hkey
  · exact hkey

theorem MyService_StartsKeepKeys (ss : List Nat) (ctx : Context String Int)
    (w : services.TestWorld) :
    services.StartsKeepKeys services.MyServiceImpl Context.Value ss ctx w := by
  induction ss generalizing ctx w with
  | nil => trivial
  | cons s ss ih => exact ⟨fun key hkey => MyService_Start_keeps s ctx w key hkey, ih _ _⟩

/-! ## Helper lemmas: the passes of the resolver come to rest -/

theorem godif_candidates_sublist {Ty Val : Type} [DecidableEq Ty]
    (reg : godif.Registry Ty Val) (L : List (godif.Requirement Ty)) :
    ((L.filterMap (godif.candidate reg)).map Prod.fst).Sublist
      (L.map godif.Requirement.slot) := by
  induction L with
  | nil => exact List.Sublist.slnil
  | cons a L ih =>
    cases hc : godif.candidate reg a with
    | none =>
      rw [List.filterMap_cons, hc]
      exact ih.trans (List.sublist_cons_self _ _)
    | some c =>
      rw [List.filterMap_cons, hc, List.map_cons, List.map_cons,
        (godif_candidate_slot reg a c hc).1]
      exact ih.cons₂ _

theorem godif_bindPass_inv {Ty Val : Type} (reg : godif.Registry Ty Val)
    (cands : List (Nat × godif.Provision Ty Val)) (bound : List Nat)
    (hc : (cands.map Prod.fst).Nodup) (hb : bound.Nodup) :
    (godif.bindPass reg cands bound).Nodup := by
  unfold godif.bindPass
  rw [List.nodup_append]
  refine ⟨hb, hc.sublist ((List.filter_sublist _).map _), ?_⟩
  intro s hs hs2
  obtain ⟨c, hcm, rfl⟩ := List.mem_map.mp hs2
  have := (List.mem_filter.mp hcm).2
  simp only [Bool.and_eq_true, decide_eq_true_eq] at this
  exact this.1 hs

/-- With as many passes allowed as there are candidates, the passes of step 4
stop because a pass binds nothing more, not because the allowance runs out. -/
theorem godif_bindAll_stable {Ty Val : Type} (reg : godif.Registry Ty Val)
    (cands : List (Nat × godif.Provision Ty Val)) (hc : (cands.map Prod.fst).Nodup)
    (fuel : Nat) (bound : List Nat) (hb : bound.Nodup)
    (hsub : ∀ s ∈ bound, s ∈ cands.map Prod.fst)
    (hfuel : cands.length ≤ bound.length + fuel) :
    (godif.bindPass reg cands (godif.bindAll reg cands fuel bound)).length
      = (godif.bindAll reg cands fuel bound).length := by
  induction fuel generalizing bound with
  | zero =>
    simp only [godif.bindAll]
    have hsp : List.Subperm bound (cands.map Prod.fst) := List.subperm_of_subset hb hsub
    have hperm : List.Perm bound (cands.map Prod.fst) :=
      hsp.perm_of_length_le (by rw [List.length_map]; omega)
    unfold godif.bindPass
    rw [List.length_append, List.length_map]
    have hnil : (cands.filter fun c =>
        decide (c.1 ∉ bound) &&
          c.2.needs.all fun n =>
            decide (n ∈ bound) ||
              reg.requirements.any fun q => q.collection && decide (q.slot = n)) = [] := by
      rw [List.filter_eq_nil_iff]
      intro c hcm hp
      simp only [Bool.and_eq_true, decide_eq_true_eq] at hp
      exact hp.1 (hperm.symm.subset (List.mem_map_of_mem _ hcm))
    rw [hnil]
    rfl
  | succ n ih =>
    unfold godif.bindAll
    split
    · rename_i heq
      exact heq
    · rename_i hne
      apply ih _ (godif_bindPass_inv reg cands bound hc hb)
        (godif_bindPass_subset reg cands bound hsub)
      have hge : bound.length ≤ (godif.bindPass reg cands bound).length := by
        unfold godif.bindPass
        rw [List.length_append]
        omega
      omega

/-- In a registry built through the declaration API the resolver reaches its
fixed point: one more pass after those of `ResolveAll` binds nothing. -/
theorem godif_ResolveAll_passes_stable {Ty Val : Type} [DecidableEq Ty]
    (ds : List (godif.Decl Ty Val)) :
    (godif.bindPass (godif.declareAll ds)
        ((godif.singular (godif.declareAll ds)).filterMap (godif.candidate (godif.declareAll ds)))
        (godif.bindAll (godif.declareAll ds)
          ((godif.singular (godif.declareAll ds)).filterMap
            (godif.candidate (godif.declareAll ds)))
          ((godif.singular (godif.declareAll ds)).filterMap
            (godif.candidate (godif.declareAll ds))).length [])).length
      = (godif.bindAll (godif.declareAll ds)
          ((godif.singular (godif.declareAll ds)).filterMap
            (godif.candidate (godif.declareAll ds)))
          ((godif.singular (godif.declareAll ds)).filterMap
            (godif.candidate (godif.declareAll ds))).length []).length :=
  godif_bindAll_stable _ _
    ((godif_singular_nodup _ (godif_declareAll_nodup ds)).sublist
      (godif_candidates_sublist _ _))
    _ [] List.nodup_nil (fun _ h => by simp at h) (by simp)

/-! ## The assertions of interfacetest.go, replayed on the embedding -/

/-- TestBasicUsage: no error, both services in State 2 after InitAndStart,
both keys in the context, `ctxValue` read by Start, State 0 after
StopAndFinit. -/
theorem TestBasicUsage_assertions :
    (initAndStartImpl myServiceImpl [1, 2] [] (Tracking.fresh (testHeap false false))).err
      = none ∧
    ((initAndStartImpl myServiceImpl [1, 2] []
        (Tracking.fresh (testHeap false false))).state.world 1).State = 2 ∧
    ((initAndStartImpl myServiceImpl [1, 2] []
        (Tracking.fresh (testHeap false false))).state.world 2).State = 2 ∧
    Context.Value (initAndStartImpl myServiceImpl [1, 2] []
        (Tracking.fresh (testHeap false false))).newCtx "Service1" = some true ∧
    Context.Value (initAndStartImpl myServiceImpl [1, 2] []
        (Tracking.fresh (testHeap false false))).newCtx "Service2" = some true ∧
    Context.Value (initAndStartImpl myServiceImpl [1, 2] []
        (Tracking.fresh (testHeap false false))).newCtx "Service3" = none ∧
    ((initAndStartImpl myServiceImpl [1, 2] []
        (Tracking.fresh (testHeap false false))).state.world 1).ctxValue = some true ∧
    ((initAndStartThenStopAndFinit myServiceImpl [1, 2] [] []
        (testHeap false false)).world 1).State = 0 ∧
    ((initAndStartThenStopAndFinit myServiceImpl [1, 2] [] []
        (testHeap false false)).world 2).State = 0 := by
  decide

/-- TestFailedInit: an error naming Service2 and not Service1, States 1 and 0
after InitAndStart, 0 and 0 after StopAndFinit. -/
theorem TestFailedInit_assertions :
    (initAndStartImpl myServiceImpl [1, 2] [] (Tracking.fresh (testHeap true false))).err
      = some "Service2:Init fails" ∧
    stringsContains "Service2:Init fails" "Service2" ∧
    ¬ stringsContains "Service2:Init fails" "Service1" ∧
    ((initAndStartImpl myServiceImpl [1, 2] []
        (Tracking.fresh (testHeap true false))).state.world 1).State = 1 ∧
    ((initAndStartImpl myServiceImpl [1, 2] []
        (Tracking.fresh (testHeap true false))).state.world 2).State = 0 ∧
    ((initAndStartThenStopAndFinit myServiceImpl [1, 2] [] []
        (testHeap true false)).world 1).State = 0 ∧
    ((initAndStartThenStopAndFinit myServiceImpl [1, 2] [] []
        (testHeap true false)).world 2).State = 0 := by
  decide

/-- TestFailedStart: an error naming Service2 and not Service1, States 2 and 1
after InitAndStart, 0 and 0 after StopAndFinit. -/
theorem TestFailedStart_assertions :
    (initAndStartImpl myServiceImpl [1, 2] [] (Tracking.fresh (testHeap false true))).err
      = some "Service2:Start fails" ∧
    stringsContains "Service2:Start fails" "Service2" ∧
    ¬ stringsContains "Service2:Start fails" "Service1" ∧
    ((initAndStartImpl myServiceImpl [1, 2] []
        (Tracking.fresh (testHeap false true))).state.world 1).State = 2 ∧
    ((initAndStartImpl myServiceImpl [1, 2] []
        (Tracking.fresh (testHeap false true))).state.world 2).State = 1 ∧
    ((initAndStartThenStopAndFinit myServiceImpl [1, 2] [] []
        (testHeap false true)).world 1).State = 0 ∧
    ((initAndStartThenStopAndFinit myServiceImpl [1, 2] [] []
        (testHeap false true)).world 2).State = 0 := by
  decide

/-- TestPanicedStart of impl_test.go on the model of `Run`: the error is an
EPanic with the payload and Service2, every State is 0, Start was invoked on
Service1 and Service2 and not on Service3. -/
theorem TestPanicedStart_assertions :
    (services.Run services.MyServiceImpl [1, 2, 3] [] [] true services.panicWorld).err
      = some (services.Error.EPanic "somethingwrong" 2) ∧
    ((services.Run services.MyServiceImpl [1, 2, 3] [] [] true
        services.panicWorld).world.heap 1).State = 0 ∧
    ((services.Run services.MyServiceImpl [1, 2, 3] [] [] true
        services.panicWorld).world.heap 1).StartInvoked = true ∧
    ((services.Run services.MyServiceImpl [1, 2, 3] [] [] true
        services.panicWorld).world.heap 2).State = 0 ∧
    ((services.Run services.MyServiceImpl [1, 2, 3] [] [] true
        services.panicWorld).world.heap 2).StartInvoked = true ∧
    ((services.Run services.MyServiceImpl [1, 2, 3] [] [] true
        services.panicWorld).world.heap 3).State = 0 ∧
    ((services.Run services.MyServiceImpl [1, 2, 3] [] [] true
        services.panicWorld).world.heap 3).StartInvoked = false := by
  decide

/-- From the fresh state, `started` after `initAndStartImpl` holds services of
the list only, none more often than the list does. -/
theorem initAndStartImpl_started_sublist {S Ctx Err W : Type} (svc : IService S Ctx Err W)
    (Services : List S) (ctx : Ctx) (w : W) :
    (initAndStartImpl svc Services ctx (Tracking.fresh w)).state.started.Sublist Services := by
  rcases InitsSucceed_or_fails svc Services ctx w with hI | ⟨pre, sk, post, e, hxs, hpre, hk⟩
  · rcases StartsSucceed_or_fails svc (afterInits svc Services ctx w).1 Services
      (afterInits svc Services ctx w).2 with hS | ⟨pre, sk, post, e, hxs, hpre, hk⟩
    · rw [initAndStartImpl_ok svc Services ctx (Tracking.fresh w) hI hS]
      simp [Tracking.fresh]
    · subst hxs
      rw [initAndStartImpl_startFail svc pre sk post ctx (Tracking.fresh w) e hI hpre hk]
      simp [Tracking.fresh]
  · subst hxs
    rw [initAndStartImpl_initFail svc pre sk post ctx (Tracking.fresh w) e hpre hk]
    simp [Tracking.fresh]

/-- In the log of InitAndStart followed by StopAndFinit from the fresh state,
the Stop calls on a service are as many as its entries in `started` after
InitAndStart. -/
theorem made_Stop_lifecycle {S Ctx Err W : Type} [DecidableEq S] (svc : IService S Ctx Err W)
    (Services : List S) (sched : List Nat) (ctx : Ctx) (w : W) (s : S) :
    made Hook.Stop s (initAndStartThenStopAndFinit svc Services sched ctx w).calls
      = (initAndStartImpl svc Services ctx (Tracking.fresh w)).state.started.count s := by
  obtain ⟨is, ss, new, _, _, hc, hnew⟩ :=
    initAndStartImpl_extends svc Services ctx (Tracking.fresh w)
  unfold initAndStartThenStopAndFinit
  rw [stopAndFinitImpl_eq, hc]
  simp only [made_append, made_callsOf_same,
    made_callsOf_other Hook.Stop Hook.Finit (by decide), count_stopOrder]
  have h0 : made Hook.Stop s (Tracking.fresh w : Tracking S Ctx W).calls = 0 := rfl
  have h1 : made Hook.Stop s new = 0 :=
    made_eq_zero Hook.Stop s new (fun e he => by
      rcases hnew e he with h | h <;> rw [h] <;> decide)
  omega

/-! ## The claims -/

/-- C1: when every Init and every Start succeeds, InitAndStart run from empty
tracking lists calls Init on each service of the list once, in list order,
then Start on each service once, in list order, returns a nil error, and
leaves `inited` and `started` both equal to the service list. -/
theorem initAndStart_success_calls_and_tracking {S Ctx Err W : Type}
    (svc : IService S Ctx Err W) (Services : List S) (ctx : Ctx) (w : W)
    (hInit : InitsSucceed svc Services ctx w)
    (hStart : StartsSucceed svc (afterInits svc Services ctx w).1 Services
      (afterInits svc Services ctx w).2) :
    (initAndStartImpl svc Services ctx (Tracking.fresh w)).err = none ∧
    (initAndStartImpl svc Services ctx (Tracking.fresh w)).state.inited = Services ∧
    (initAndStartImpl svc Services ctx (Tracking.fresh w)).state.started = Services ∧
    (initAndStartImpl svc Services ctx (Tracking.fresh w)).state.calls.map Call.sig
      = (Services.map fun s => (Hook.Init, s)) ++ (Services.map fun s => (Hook.Start, s)) := by
  rw [initAndStartImpl_ok svc Services ctx (Tracking.fresh w) hInit hStart]
  simp [Tracking.fresh, initCalls_sig, callsOf_sig]

/-- Witness of C1 on TestBasicUsage: Service1 and Service2, no induced failure. -/
theorem initAndStart_success_calls_and_tracking_witness :
    (initAndStartImpl myServiceImpl [1, 2] [] (Tracking.fresh (testHeap false false))).err = none ∧
    (initAndStartImpl myServiceImpl [1, 2] [] (Tracking.fresh (testHeap false false))).state.inited
      = [1, 2] ∧
    (initAndStartImpl myServiceImpl [1, 2] [] (Tracking.fresh (testHeap false false))).state.started
      = [1, 2] ∧
    (initAndStartImpl myServiceImpl [1, 2] []
        (Tracking.fresh (testHeap false false))).state.calls.map Call.sig
      = [(Hook.Init, 1), (Hook.Init, 2), (Hook.Start, 1), (Hook.Start, 2)] :=
  initAndStart_success_calls_and_tracking myServiceImpl [1, 2] [] (testHeap false false)
    (by decide) (by decide)

/-- C2: when Init succeeds on the services before `sk` and fails on `sk`,
InitAndStart run from empty tracking lists calls Init on exactly those services
and `sk`, in order, and nothing else (no Init on a later service, no Start at
all), records exactly the services before `sk` in `inited` and nothing in
`started`, and returns the error of the Init of `sk`. -/
theorem initAndStart_init_failure {S Ctx Err W : Type}
    (svc : IService S Ctx Err W) (pre : List S) (sk : S) (post : List S)
    (ctx : Ctx) (w : W) (e : Err)
    (hInit : InitsSucceed svc pre ctx w)
    (hk : (svc.Init sk (afterInits svc pre ctx w).1 (afterInits svc pre ctx w).2).err = some e) :
    (initAndStartImpl svc (pre ++ sk :: post) ctx (Tracking.fresh w)).err = some e ∧
    (initAndStartImpl svc (pre ++ sk :: post) ctx (Tracking.fresh w)).state.inited = pre ∧
    (initAndStartImpl svc (pre ++ sk :: post) ctx (Tracking.fresh w)).state.started = [] ∧
    (initAndStartImpl svc (pre ++ sk :: post) ctx (Tracking.fresh w)).state.calls.map Call.sig
      = (pre ++ [sk]).map fun s => (Hook.Init, s) := by
  rw [initAndStartImpl_initFail svc pre sk post ctx (Tracking.fresh w) e hInit hk]
  simp [Tracking.fresh, initCalls_sig]

/-- Witness of C2 on TestFailedInit extended by a third service: Service2
fails Init, the service after it is never touched. -/
theorem initAndStart_init_failure_witness :
    (initAndStartImpl myServiceImpl ([1] ++ 2 :: [3]) []
        (Tracking.fresh (testHeap true false))).err = some "Service2:Init fails" ∧
    (initAndStartImpl myServiceImpl ([1] ++ 2 :: [3]) []
        (Tracking.fresh (testHeap true false))).state.inited = [1] ∧
    (initAndStartImpl myServiceImpl ([1] ++ 2 :: [3]) []
        (Tracking.fresh (testHeap true false))).state.started = [] ∧
    (initAndStartImpl myServiceImpl ([1] ++ 2 :: [3]) []
        (Tracking.fresh (testHeap true false))).state.calls.map Call.sig
      = ([1] ++ [2]).map fun s => (Hook.Init, s) :=
  initAndStart_init_failure myServiceImpl [1] 2 [3] [] (testHeap true false)
    "Service2:Init fails" (by decide) (by decide)

/-- C3: when every Init succeeds, Start succeeds on the services before `sk`
and fails on `sk`, InitAndStart run from empty tracking lists calls Start on
exactly those services and `sk`, in order (after the Init calls), never on a
later service, records exactly the services before `sk` in `started`, and
returns the error of the Start of `sk`. -/
theorem initAndStart_start_failure {S Ctx Err W : Type}
    (svc : IService S Ctx Err W) (pre : List S) (sk : S) (post : List S)
    (ctx : Ctx) (w : W) (e : Err)
    (hInit : InitsSucceed svc (pre ++ sk :: post) ctx w)
    (hStart : StartsSucceed svc (afterInits svc (pre ++ sk :: post) ctx w).1 pre
      (afterInits svc (pre ++ sk :: post) ctx w).2)
    (hk : (svc.Start sk (afterInits svc (pre ++ sk :: post) ctx w).1
            (afterStarts svc (afterInits svc (pre ++ sk :: post) ctx w).1 pre
              (afterInits svc (pre ++ sk :: post) ctx w).2)).err = some e) :
    (initAndStartImpl svc (pre ++ sk :: post) ctx (Tracking.fresh w)).err = some e ∧
    (initAndStartImpl svc (pre ++ sk :: post) ctx (Tracking.fresh w)).state.started = pre ∧
    (initAndStartImpl svc (pre ++ sk :: post) ctx (Tracking.fresh w)).state.calls.map Call.sig
      = ((pre ++ sk :: post).map fun s => (Hook.Init, s))
          ++ ((pre ++ [sk]).map fun s => (Hook.Start, s)) := by
  rw [initAndStartImpl_startFail svc pre sk post ctx (Tracking.fresh w) e hInit hStart hk]
  simp [Tracking.fresh, initCalls_sig, callsOf_sig]

/-- Witness of C3 on TestFailedStart extended by a third service: Service2
fails Start, the service after it is inited and never started. -/
theorem initAndStart_start_failure_witness :
    (initAndStartImpl myServiceImpl ([1] ++ 2 :: [3]) []
        (Tracking.fresh (testHeap false true))).err = some "Service2:Start fails" ∧
    (initAndStartImpl myServiceImpl ([1] ++ 2 :: [3]) []
        (Tracking.fresh (testHeap false true))).state.started = [1] ∧
    (initAndStartImpl myServiceImpl ([1] ++ 2 :: [3]) []
        (Tracking.fresh (testHeap false true))).state.calls.map Call.sig
      = (([1] ++ 2 :: [3]).map fun s => (Hook.Init, s))
          ++ (([1] ++ [2]).map fun s => (Hook.Start, s)) :=
  initAndStart_start_failure myServiceImpl [1] 2 [3] [] (testHeap false true)
    "Service2:Start fails" (by decide) (by decide) (by decide)

/-- C4: whatever `inited` holds, StopAndFinit calls Finit on its elements in
exact reverse order, once per element and on nothing else: the calls it adds
are the Stop calls followed by Finit on `inited` reversed, so its Finit calls
are exactly those. -/
theorem stopAndFinit_finit_reverse_of_inited {S Ctx Err W : Type}
    (svc : IService S Ctx Err W) (sched : List Nat) (ctx : Ctx) (st : Tracking S Ctx W) :
    (stopAndFinitImpl svc sched ctx st).calls
      = st.calls ++ callsOf Hook.Stop ctx (stopOrder sched st.started)
          ++ callsOf Hook.Finit ctx st.inited.reverse ∧
    (((stopAndFinitImpl svc sched ctx st).calls.drop st.calls.length).filter
        fun e => decide (e.hook = Hook.Finit))
      = callsOf Hook.Finit ctx st.inited.reverse := by
  rw [stopAndFinitImpl_eq]
  refine ⟨by simp, ?_⟩
  simp only [List.drop_left, List.filter_append, filter_hook_callsOf_same]
  rw [filter_hook_callsOf_other Hook.Finit Hook.Stop (by decide)]
  simp

/-- C5: when the Init of `sk` is the first hook to fail, InitAndStart followed
by StopAndFinit makes these calls and no other: Init on the services before
`sk` in order, the failed Init on `sk`, then Finit on the services before `sk`
in reverse order. So no Stop is called, a service that is neither `sk` nor
before it receives no call, and `sk` (when it does not also occur before
itself) receives its single failed Init only. -/
theorem stopAndFinit_after_init_failure {S Ctx Err W : Type} [DecidableEq S]
    (svc : IService S Ctx Err W) (pre : List S) (sk : S) (post : List S)
    (sched : List Nat) (ctx : Ctx) (w : W) (e : Err)
    (hInit : InitsSucceed svc pre ctx w)
    (hk : (svc.Init sk (afterInits svc pre ctx w).1 (afterInits svc pre ctx w).2).err = some e) :
    (initAndStartThenStopAndFinit svc (pre ++ sk :: post) sched ctx w).calls.map Call.sig
      = ((pre ++ [sk]).map fun s => (Hook.Init, s))
          ++ (pre.reverse.map fun s => (Hook.Finit, s)) ∧
    (∀ c ∈ (initAndStartThenStopAndFinit svc (pre ++ sk :: post) sched ctx w).calls,
      c.hook ≠ Hook.Stop) ∧
    (∀ s, s ∉ pre → s ≠ sk →
      ∀ c ∈ (initAndStartThenStopAndFinit svc (pre ++ sk :: post) sched ctx w).calls,
        c.service ≠ s) ∧
    (sk ∉ pre →
      ((initAndStartThenStopAndFinit svc (pre ++ sk :: post) sched ctx w).calls.map
          Call.sig).filter (fun p => decide (p.2 = sk)) = [(Hook.Init, sk)]) := by
  have hsig : (initAndStartThenStopAndFinit svc (pre ++ sk :: post) sched ctx w).calls.map
      Call.sig = ((pre ++ [sk]).map fun s => (Hook.Init, s))
          ++ (pre.reverse.map fun s => (Hook.Finit, s)) := by
    unfold initAndStartThenStopAndFinit
    simp only [initAndStartImpl_initFail svc pre sk post ctx (Tracking.fresh w) e hInit hk,
      stopAndFinitImpl_eq]
    simp [Tracking.fresh, stopOrder_nil, initCalls_sig, callsOf_sig]
  refine ⟨hsig, ?_, ?_, ?_⟩
  · intro c hc hstop
    have hm := mem_calls_of_sig _ _ hsig c hc
    rw [hstop] at hm
    simp at hm
  · intro s hs hsk c hc hcs
    have hm := mem_calls_of_sig _ _ hsig c hc
    rw [hcs] at hm
    simp only [List.mem_append, List.mem_map, Prod.mk.injEq, List.mem_reverse,
      List.mem_singleton] at hm
    rcases hm with ⟨a, ha | ha, _, has⟩ | ⟨a, ha, _, has⟩
    · exact hs (has ▸ ha)
    · exact hsk (has ▸ ha)
    · exact hs (has ▸ ha)
  · intro hnot
    have hnone : pre.filter (fun x => decide (x = sk)) = [] := by
      simp only [List.filter_eq_nil_iff, decide_eq_true_eq]
      intro a ha hask
      exact hnot (hask ▸ ha)
    rw [hsig]
    simp [List.filter_append, List.filter_map, Function.comp_def, hnone]

/-- Witness of C5 on TestFailedInit extended by a third service. -/
theorem stopAndFinit_after_init_failure_witness :
    (initAndStartThenStopAndFinit myServiceImpl ([1] ++ 2 :: [3]) [] []
        (testHeap true false)).calls.map Call.sig
      = (([1] ++ [2]).map fun s => (Hook.Init, s))
          ++ (([1] : List Nat).reverse.map fun s => (Hook.Finit, s)) :=
  (stopAndFinit_after_init_failure myServiceImpl [1] 2 [3] [] [] (testHeap true false)
    "Service2:Init fails" (by decide) (by decide)).1

/-- C6, as stated, fails: with Service1, Service2, Service3 and Service2 the
first to fail Start (k = 2 of N = 3), every Init has succeeded, so `inited`
holds all three services, not only the first two, and the following
StopAndFinit finalizes Service3 as well. -/
theorem start_failure_inited_only_up_to_k_counterexample :
    InitsSucceed myServiceImpl ([1] ++ 2 :: [3]) [] (testHeap false true) ∧
    StartsSucceed myServiceImpl
      (afterInits myServiceImpl ([1] ++ 2 :: [3]) [] (testHeap false true)).1 [1]
      (afterInits myServiceImpl ([1] ++ 2 :: [3]) [] (testHeap false true)).2 ∧
    (initAndStartImpl myServiceImpl ([1] ++ 2 :: [3]) []
        (Tracking.fresh (testHeap false true))).err = some "Service2:Start fails" ∧
    (initAndStartImpl myServiceImpl ([1] ++ 2 :: [3]) []
        (Tracking.fresh (testHeap false true))).state.started = [1] ∧
    (initAndStartImpl myServiceImpl ([1] ++ 2 :: [3]) []
        (Tracking.fresh (testHeap false true))).state.inited = [1, 2, 3] ∧
    ¬ (initAndStartImpl myServiceImpl ([1] ++ 2 :: [3]) []
        (Tracking.fresh (testHeap false true))).state.inited = [1] ++ [2] ∧
    ((initAndStartThenStopAndFinit myServiceImpl ([1] ++ 2 :: [3]) [] []
        (testHeap false true)).calls.map Call.sig).filter (fun p => decide (p.1 = Hook.Finit))
      = [(Hook.Finit, 3), (Hook.Finit, 2), (Hook.Finit, 1)] ∧
    ¬ ((initAndStartThenStopAndFinit myServiceImpl ([1] ++ 2 :: [3]) [] []
        (testHeap false true)).calls.map Call.sig).filter (fun p => decide (p.1 = Hook.Finit))
      = (([1] ++ [2] : List Nat).reverse.map fun s => (Hook.Finit, s)) := by
  decide

/-- C6, amended: when every Init succeeds and the Start of `sk` is the first to
fail, InitAndStart leaves every service of the list (not only those up to
`sk`) in `inited` and exactly the services before `sk` in `started`; the
following StopAndFinit calls Stop once on each service before `sk`, in the
order the scheduler picks, then Finit on every service of the list in reverse
list order, and makes no other call. -/
theorem stopAndFinit_after_start_failure {S Ctx Err W : Type}
    (svc : IService S Ctx Err W) (pre : List S) (sk : S) (post : List S)
    (sched : List Nat) (ctx : Ctx) (w : W) (e : Err)
    (hInit : InitsSucceed svc (pre ++ sk :: post) ctx w)
    (hStart : StartsSucceed svc (afterInits svc (pre ++ sk :: post) ctx w).1 pre
      (afterInits svc (pre ++ sk :: post) ctx w).2)
    (hk : (svc.Start sk (afterInits svc (pre ++ sk :: post) ctx w).1
            (afterStarts svc (afterInits svc (pre ++ sk :: post) ctx w).1 pre
              (afterInits svc (pre ++ sk :: post) ctx w).2)).err = some e) :
    (initAndStartImpl svc (pre ++ sk :: post) ctx (Tracking.fresh w)).state.inited
      = pre ++ sk :: post ∧
    (initAndStartImpl svc (pre ++ sk :: post) ctx (Tracking.fresh w)).state.started = pre ∧
    (initAndStartThenStopAndFinit svc (pre ++ sk :: post) sched ctx w).calls.map Call.sig
      = ((pre ++ sk :: post).map fun s => (Hook.Init, s))
          ++ ((pre ++ [sk]).map fun s => (Hook.Start, s))
          ++ ((stopOrder sched pre).map fun s => (Hook.Stop, s))
          ++ ((pre ++ sk :: post).reverse.map fun s => (Hook.Finit, s)) ∧
    (stopOrder sched pre).Perm pre := by
  refine ⟨?_, ?_, ?_, stopOrder_perm sched pre⟩
  · rw [initAndStartImpl_startFail svc pre sk post ctx (Tracking.fresh w) e hInit hStart hk]
    simp [Tracking.fresh]
  · rw [initAndStartImpl_startFail svc pre sk post ctx (Tracking.fresh w) e hInit hStart hk]
    simp [Tracking.fresh]
  · unfold initAndStartThenStopAndFinit
    simp only [initAndStartImpl_startFail svc pre sk post ctx (Tracking.fresh w) e hInit hStart hk,
      stopAndFinitImpl_eq]
    simp [Tracking.fresh, initCalls_sig, callsOf_sig]

/-- Witness of amended C6: Service2 of three services fails Start. -/
theorem stopAndFinit_after_start_failure_witness :
    (initAndStartImpl myServiceImpl ([1] ++ 2 :: [3]) []
        (Tracking.fresh (testHeap false true))).state.inited = [1] ++ 2 :: [3] ∧
    (initAndStartImpl myServiceImpl ([1] ++ 2 :: [3]) []
        (Tracking.fresh (testHeap false true))).state.started = [1] ∧
    (initAndStartThenStopAndFinit myServiceImpl ([1] ++ 2 :: [3]) [] []
        (testHeap false true)).calls.map Call.sig
      = (([1] ++ 2 :: [3]).map fun s => (Hook.Init, s))
          ++ (([1] ++ [2]).map fun s => (Hook.Start, s))
          ++ ((stopOrder [] [1]).map fun s => (Hook.Stop, s))
          ++ (([1] ++ 2 :: [3]).reverse.map fun s => (Hook.Finit, s)) ∧
    (stopOrder [] [1]).Perm [1] :=
  stopAndFinit_after_start_failure myServiceImpl [1] 2 [3] [] [] (testHeap false true)
    "Service2:Start fails" (by decide) (by decide) (by decide)

/-- C7: when every Init and every Start succeeds, the context returned by
InitAndStart is the input context threaded through the Inits in list order
(the input context itself for the empty list); hence, when each Init only adds
keys, it holds every key of the input context and every key held by the
context that any service's Init returned. -/
theorem initAndStart_returns_threaded_context {S Ctx Err W K V : Type}
    (svc : IService S Ctx Err W) (Value : Ctx → K → Option V)
    (Services : List S) (ctx : Ctx) (w : W)
    (hInit : InitsSucceed svc Services ctx w)
    (hStart : StartsSucceed svc (afterInits svc Services ctx w).1 Services
      (afterInits svc Services ctx w).2) :
    (initAndStartImpl svc Services ctx (Tracking.fresh w)).newCtx
      = (afterInits svc Services ctx w).1 ∧
    (Services = [] → (initAndStartImpl svc Services ctx (Tracking.fresh w)).newCtx = ctx) ∧
    (InitsKeepKeys svc Value Services ctx w →
      (∀ key, Value ctx key ≠ none →
        Value (initAndStartImpl svc Services ctx (Tracking.fresh w)).newCtx key ≠ none) ∧
      (∀ xs s ys, Services = xs ++ s :: ys →
        ∀ key, Value (afterInits svc (xs ++ [s]) ctx w).1 key ≠ none →
          Value (initAndStartImpl svc Services ctx (Tracking.fresh w)).newCtx key ≠ none)) := by
  rw [initAndStartImpl_ok svc Services ctx (Tracking.fresh w) hInit hStart]
  refine ⟨rfl, ?_, ?_⟩
  · intro hnil
    subst hnil
    rfl
  · intro hkeep
    refine ⟨fun key hkey => afterInits_keeps svc Value Services ctx w hkeep key hkey, ?_⟩
    intro xs s ys hsplit key hkey
    subst hsplit
    exact afterInits_keeps_service_keys svc Value xs s ys ctx w hkeep key hkey

/-- Witness of C7 on TestBasicUsage, run with a root context that holds the
key "root": the returned context holds "root", "Service1" and "Service2". -/
theorem initAndStart_returns_threaded_context_witness :
    (initAndStartImpl myServiceImpl [1, 2] [("root", true)]
        (Tracking.fresh (testHeap false false))).newCtx
      = [("Service2", true), ("Service1", true), ("root", true)] ∧
    Context.Value (initAndStartImpl myServiceImpl [1, 2] [("root", true)]
        (Tracking.fresh (testHeap false false))).newCtx "root" ≠ none ∧
    Context.Value (initAndStartImpl myServiceImpl [1, 2] [("root", true)]
        (Tracking.fresh (testHeap false false))).newCtx "Service1" ≠ none ∧
    Context.Value (initAndStartImpl myServiceImpl [1, 2] [("root", true)]
        (Tracking.fresh (testHeap false false))).newCtx "Service2" ≠ none :=
  have h := initAndStart_returns_threaded_context myServiceImpl Context.Value [1, 2]
    [("root", true)] (testHeap false false) (by decide) (by decide)
  have hk := h.2.2 (myService_InitsKeepKeys [1, 2] [("root", true)] (testHeap false false))
  ⟨h.1.trans (by decide), hk.1 "root" (by decide),
    hk.2 [] 1 [2] rfl "Service1" (by decide), hk.2 [1] 2 [] rfl "Service2" (by decide)⟩

/-- C8: when every Init succeeds, every Start call made by InitAndStart
receives one and the same context, the one reached after the Init of the last
service; so, when each Init only adds keys, a key held by the context that any
service's Init returned is held by the context of every Start call, that
service's own included. -/
theorem initAndStart_start_calls_share_final_context {S Ctx Err W K V : Type}
    (svc : IService S Ctx Err W) (Value : Ctx → K → Option V)
    (Services : List S) (ctx : Ctx) (w : W)
    (hInit : InitsSucceed svc Services ctx w) :
    (∀ e ∈ (initAndStartImpl svc Services ctx (Tracking.fresh w)).state.calls,
      e.hook = Hook.Start → e.ctx = (afterInits svc Services ctx w).1) ∧
    (InitsKeepKeys svc Value Services ctx w →
      ∀ xs s ys, Services = xs ++ s :: ys →
        ∀ key, Value (afterInits svc (xs ++ [s]) ctx w).1 key ≠ none →
          ∀ e ∈ (initAndStartImpl svc Services ctx (Tracking.fresh w)).state.calls,
            e.hook = Hook.Start → Value e.ctx key ≠ none) := by
  refine ⟨fun e he hs => start_calls_ctx svc Services ctx w hInit e he hs, ?_⟩
  intro hkeep xs s ys hsplit key hkey e he hs
  rw [start_calls_ctx svc Services ctx w hInit e he hs]
  subst hsplit
  exact afterInits_keeps_service_keys svc Value xs s ys ctx w hkeep key hkey

/-- Witness of C8 on TestBasicUsage: the Start call on Service1 receives the
context reached after the Init of Service2, and finds both keys in it. -/
theorem initAndStart_start_calls_share_final_context_witness :
    ({ hook := Hook.Start, service := 1,
       ctx := [("Service2", true), ("Service1", true)] } : Call Nat (Context String Bool))
      ∈ (initAndStartImpl myServiceImpl [1, 2] []
          (Tracking.fresh (testHeap false false))).state.calls ∧
    ([("Service2", true), ("Service1", true)] : Context String Bool)
      = (afterInits myServiceImpl [1, 2] [] (testHeap false false)).1 ∧
    Context.Value ([("Service2", true), ("Service1", true)] : Context String Bool) "Service1"
      ≠ none ∧
    Context.Value ([("Service2", true), ("Service1", true)] : Context String Bool) "Service2"
      ≠ none :=
  have h := initAndStart_start_calls_share_final_context myServiceImpl Context.Value [1, 2] []
    (testHeap false false) (by decide)
  have hk := h.2 (myService_InitsKeepKeys [1, 2] [] (testHeap false false))
  have hmem :
    ({ hook := Hook.Start, service := 1,
       ctx := [("Service2", true), ("Service1", true)] } : Call Nat (Context String Bool))
      ∈ (initAndStartImpl myServiceImpl [1, 2] []
          (Tracking.fresh (testHeap false false))).state.calls := by decide
  ⟨hmem, h.1 _ hmem rfl, hk [] 1 [2] rfl "Service1" (by decide) _ hmem rfl,
    hk [1] 2 [] rfl "Service2" (by decide) _ hmem rfl⟩

/-- C9, as stated, fails: a service whose Init fails after deriving a context
hands that derived context back, and InitAndStart returns it as it is, not the
context the Init was given. -/
theorem init_failure_context_leaks_counterexample :
    (leakyImpl.Init 0 (afterInits leakyImpl [] [] ()).1 (afterInits leakyImpl [] [] ()).2).err
      = some "Init fails" ∧
    (initAndStartImpl leakyImpl ([] ++ 0 :: []) [] (Tracking.fresh ())).err
      = some "Init fails" ∧
    (initAndStartImpl leakyImpl ([] ++ 0 :: []) [] (Tracking.fresh ())).newCtx
      = [("leak", true)] ∧
    ¬ (initAndStartImpl leakyImpl ([] ++ 0 :: []) [] (Tracking.fresh ())).newCtx
      = (afterInits leakyImpl [] [] ()).1 := by
  decide

/-- C9, amended: when the Init of `sk` is the first to fail, the context
returned by InitAndStart is the context that this failing Init returned; it is
the context the Init was given (the input context threaded through the Inits
of the services before `sk`) whenever the failing Init keeps the contract of
IService and returns the context of its parameter. -/
theorem init_failure_returns_hook_context {S Ctx Err W : Type}
    (svc : IService S Ctx Err W) (pre : List S) (sk : S) (post : List S)
    (ctx : Ctx) (w : W) (e : Err)
    (hInit : InitsSucceed svc pre ctx w)
    (hk : (svc.Init sk (afterInits svc pre ctx w).1 (afterInits svc pre ctx w).2).err = some e) :
    (initAndStartImpl svc (pre ++ sk :: post) ctx (Tracking.fresh w)).newCtx
      = (svc.Init sk (afterInits svc pre ctx w).1 (afterInits svc pre ctx w).2).newCtx ∧
    ((svc.Init sk (afterInits svc pre ctx w).1 (afterInits svc pre ctx w).2).newCtx
        = (afterInits svc pre ctx w).1 →
      (initAndStartImpl svc (pre ++ sk :: post) ctx (Tracking.fresh w)).newCtx
        = (afterInits svc pre ctx w).1) := by
  rw [initAndStartImpl_initFail svc pre sk post ctx (Tracking.fresh w) e hInit hk]
  exact ⟨rfl, fun h => h⟩

/-- Witness of amended C9 on TestFailedInit: the Init of Service2 fails and
returns its parameter, so InitAndStart returns the context Service1 built. -/
theorem init_failure_returns_hook_context_witness :
    (initAndStartImpl myServiceImpl ([1] ++ 2 :: []) []
        (Tracking.fresh (testHeap true false))).newCtx
      = (afterInits myServiceImpl [1] [] (testHeap true false)).1 ∧
    (afterInits myServiceImpl [1] [] (testHeap true false)).1 = [("Service1", true)] :=
  ⟨(init_failure_returns_hook_context myServiceImpl [1] 2 [] [] (testHeap true false)
      "Service2:Init fails" (by decide) (by decide)).2 (by decide), by decide⟩

/-- C10, as stated, fails: InitAndStart adds nothing to the error of the
failing hook, so what the message names is up to the service. With
`&myService{Name: "Service"}` followed by
`&myService{Name: "Service2", Failinit: true}` the returned error is
"Service2:Init fails", a text that contains the name of the first service,
which did not fail. -/
theorem init_error_names_other_service_counterexample :
    InitsSucceed myServiceImpl [1] [] renamedHeap ∧
    (initAndStartImpl myServiceImpl ([1] ++ 2 :: []) [] (Tracking.fresh renamedHeap)).err
      = some "Service2:Init fails" ∧
    (renamedHeap 1).Name = "Service" ∧
    (renamedHeap 2).Name = "Service2" ∧
    stringsContains "Service2:Init fails" (renamedHeap 1).Name := by
  decide

/-- C10, amended: when service `sk` is the first to fail, in Init or (every
Init having succeeded) in Start, the error returned by InitAndStart is exactly
the error value that this failing hook returned, with nothing added or
removed. -/
theorem initAndStart_returns_failing_hook_error {S Ctx Err W : Type}
    (svc : IService S Ctx Err W) (pre : List S) (sk : S) (post : List S)
    (ctx : Ctx) (w : W) (e : Err)
    (h : (InitsSucceed svc pre ctx w ∧
          (svc.Init sk (afterInits svc pre ctx w).1 (afterInits svc pre ctx w).2).err = some e) ∨
        (InitsSucceed svc (pre ++ sk :: post) ctx w ∧
          StartsSucceed svc (afterInits svc (pre ++ sk :: post) ctx w).1 pre
            (afterInits svc (pre ++ sk :: post) ctx w).2 ∧
          (svc.Start sk (afterInits svc (pre ++ sk :: post) ctx w).1
            (afterStarts svc (afterInits svc (pre ++ sk :: post) ctx w).1 pre
              (afterInits svc (pre ++ sk :: post) ctx w).2)).err = some e)) :
    (initAndStartImpl svc (pre ++ sk :: post) ctx (Tracking.fresh w)).err = some e := by
  rcases h with ⟨hInit, hk⟩ | ⟨hInit, hStart, hk⟩
  · rw [initAndStartImpl_initFail svc pre sk post ctx (Tracking.fresh w) e hInit hk]
  · rw [initAndStartImpl_startFail svc pre sk post ctx (Tracking.fresh w) e hInit hStart hk]

/-- Witness of amended C10 on TestFailedStart: the error is the one built by
the Start of Service2; as the test asserts, it contains "Service2" and does
not contain "Service1". -/
theorem initAndStart_returns_failing_hook_error_witness :
    (initAndStartImpl myServiceImpl ([1] ++ 2 :: []) []
        (Tracking.fresh (testHeap false true))).err = some "Service2:Start fails" ∧
    stringsContains "Service2:Start fails" (testHeap false true 2).Name ∧
    ¬ stringsContains "Service2:Start fails" (testHeap false true 1).Name :=
  ⟨initAndStart_returns_failing_hook_error myServiceImpl [1] 2 [] [] (testHeap false true)
      "Service2:Start fails" (Or.inr ⟨by decide, by decide, by decide⟩),
    by decide, by decide⟩

/-- C12: whatever the hooks return, the calls InitAndStart makes are Init and
Start calls, never Stop or Finit, and it only extends `inited` and `started`:
what was recorded stays recorded. In particular, when every Init succeeds and
the Start of `sk` is the first to fail, the services started before `sk` are
not stopped and are in `started` when InitAndStart returns. -/
theorem initAndStart_never_stops_or_finits {S Ctx Err W : Type}
    (svc : IService S Ctx Err W) (Services : List S) (ctx : Ctx) (st : Tracking S Ctx W) :
    (∀ e ∈ (initAndStartImpl svc Services ctx st).state.calls.drop st.calls.length,
      e.hook ≠ Hook.Stop ∧ e.hook ≠ Hook.Finit) ∧
    st.inited <+: (initAndStartImpl svc Services ctx st).state.inited ∧
    st.started <+: (initAndStartImpl svc Services ctx st).state.started ∧
    (∀ pre sk post e, Services = pre ++ sk :: post →
      InitsSucceed svc Services ctx st.world →
      StartsSucceed svc (afterInits svc Services ctx st.world).1 pre
        (afterInits svc Services ctx st.world).2 →
      (svc.Start sk (afterInits svc Services ctx st.world).1
        (afterStarts svc (afterInits svc Services ctx st.world).1 pre
          (afterInits svc Services ctx st.world).2)).err = some e →
      (initAndStartImpl svc Services ctx st).state.started = st.started ++ pre) := by
  obtain ⟨is, ss, new, hi, hs, hc, hnew⟩ := initAndStartImpl_extends svc Services ctx st
  refine ⟨?_, ⟨is, hi.symm⟩, ⟨ss, hs.symm⟩, ?_⟩
  · intro e he
    rw [hc, List.drop_left] at he
    rcases hnew e he with h | h <;> rw [h] <;> exact ⟨by decide, by decide⟩
  · intro pre sk post e hxs hI hS hk
    subst hxs
    rw [initAndStartImpl_startFail svc pre sk post ctx st e hI hS hk]

/-- Witness of C12 on TestFailedStart extended by a third service: Service1
stays in `started` after the Start of Service2 has failed. -/
theorem initAndStart_never_stops_or_finits_witness :
    (initAndStartImpl myServiceImpl ([1] ++ 2 :: [3]) []
        (Tracking.fresh (testHeap false true))).state.started
      = (Tracking.fresh (testHeap false true) : Tracking Nat (Context String Bool) Heap).started
          ++ [1] :=
  (initAndStart_never_stops_or_finits myServiceImpl ([1] ++ 2 :: [3]) []
    (Tracking.fresh (testHeap false true))).2.2.2 [1] 2 [3] "Service2:Start fails" rfl
    (by decide) (by decide) (by decide)

/-- C18: whatever the tracking lists hold, StopAndFinit leaves `started` and
`inited` empty; a second StopAndFinit right after it therefore makes no call
at all and changes nothing. -/
theorem stopAndFinit_empties_tracking_lists {S Ctx Err W : Type}
    (svc : IService S Ctx Err W) (sched sched2 : List Nat) (ctx ctx2 : Ctx)
    (st : Tracking S Ctx W) :
    (stopAndFinitImpl svc sched ctx st).started = [] ∧
    (stopAndFinitImpl svc sched ctx st).inited = [] ∧
    (stopAndFinitImpl svc sched2 ctx2 (stopAndFinitImpl svc sched ctx st)).calls
      = (stopAndFinitImpl svc sched ctx st).calls ∧
    stopAndFinitImpl svc sched2 ctx2 (stopAndFinitImpl svc sched ctx st)
      = stopAndFinitImpl svc sched ctx st := by
  have h2 : stopAndFinitImpl svc sched2 ctx2 (stopAndFinitImpl svc sched ctx st)
      = stopAndFinitImpl svc sched ctx st := by
    rw [stopAndFinitImpl_eq svc sched2 ctx2, stopAndFinitImpl_eq svc sched ctx st]
    simp [stopOrder_nil, callsOf, afterStops, afterFinits]
  refine ⟨?_, ?_, ?_, h2⟩
  · rw [stopAndFinitImpl_eq]
  · rw [stopAndFinitImpl_eq]
  · rw [h2]

/-- C19: InitAndStart does not clear the tracking lists. When every hook of
two consecutive InitAndStart calls on the same service list succeeds, `inited`
and `started` each hold the list twice over (length 2N), and the StopAndFinit
that follows calls Stop and Finit on each service twice as often as the
service occurs in the list: twice for a list of distinct services. -/
theorem initAndStart_twice_records_twice {S Ctx Err W : Type} [DecidableEq S]
    (svc : IService S Ctx Err W) (Services : List S) (ctx ctx2 ctx3 : Ctx)
    (sched : List Nat) (w : W)
    (hInit : InitsSucceed svc Services ctx w)
    (hStart : StartsSucceed svc (afterInits svc Services ctx w).1 Services
      (afterInits svc Services ctx w).2)
    (hInit2 : InitsSucceed svc Services ctx2
      (runOps svc [Op.InitAndStart Services ctx] (Tracking.fresh w)).world)
    (hStart2 : StartsSucceed svc
      (afterInits svc Services ctx2
        (runOps svc [Op.InitAndStart Services ctx] (Tracking.fresh w)).world).1 Services
      (afterInits svc Services ctx2
        (runOps svc [Op.InitAndStart Services ctx] (Tracking.fresh w)).world).2) :
    (runOps svc [Op.InitAndStart Services ctx, Op.InitAndStart Services ctx2]
        (Tracking.fresh w)).inited = Services ++ Services ∧
    (runOps svc [Op.InitAndStart Services ctx, Op.InitAndStart Services ctx2]
        (Tracking.fresh w)).started = Services ++ Services ∧
    (runOps svc [Op.InitAndStart Services ctx, Op.InitAndStart Services ctx2]
        (Tracking.fresh w)).inited.length = 2 * Services.length ∧
    (runOps svc [Op.InitAndStart Services ctx, Op.InitAndStart Services ctx2]
        (Tracking.fresh w)).started.length = 2 * Services.length ∧
    (∀ s,
      made Hook.Stop s
        ((runOps svc [Op.InitAndStart Services ctx, Op.InitAndStart Services ctx2,
            Op.StopAndFinit sched ctx3] (Tracking.fresh w)).calls.drop
          (runOps svc [Op.InitAndStart Services ctx, Op.InitAndStart Services ctx2]
            (Tracking.fresh w)).calls.length) = 2 * Services.count s ∧
      made Hook.Finit s
        ((runOps svc [Op.InitAndStart Services ctx, Op.InitAndStart Services ctx2,
            Op.StopAndFinit sched ctx3] (Tracking.fresh w)).calls.drop
          (runOps svc [Op.InitAndStart Services ctx, Op.InitAndStart Services ctx2]
            (Tracking.fresh w)).calls.length) = 2 * Services.count s) := by
  have h1 : runOps svc [Op.InitAndStart Services ctx] (Tracking.fresh w)
      = (initAndStartImpl svc Services ctx (Tracking.fresh w)).state := rfl
  have h2 : runOps svc [Op.InitAndStart Services ctx, Op.InitAndStart Services ctx2]
      (Tracking.fresh w)
      = (initAndStartImpl svc Services ctx2
          (initAndStartImpl svc Services ctx (Tracking.fresh w)).state).state := rfl
  have h3 : runOps svc [Op.InitAndStart Services ctx, Op.InitAndStart Services ctx2,
      Op.StopAndFinit sched ctx3] (Tracking.fresh w)
      = stopAndFinitImpl svc sched ctx3
          (runOps svc [Op.InitAndStart Services ctx, Op.InitAndStart Services ctx2]
            (Tracking.fresh w)) := rfl
  rw [h1] at hInit2 hStart2
  have hi : (runOps svc [Op.InitAndStart Services ctx, Op.InitAndStart Services ctx2]
      (Tracking.fresh w)).inited = Services ++ Services := by
    rw [h2, initAndStartImpl_ok svc Services ctx2 _ hInit2 hStart2,
      initAndStartImpl_ok svc Services ctx (Tracking.fresh w) hInit hStart]
    simp [Tracking.fresh]
  have hs : (runOps svc [Op.InitAndStart Services ctx, Op.InitAndStart Services ctx2]
      (Tracking.fresh w)).started = Services ++ Services := by
    rw [h2, initAndStartImpl_ok svc Services ctx2 _ hInit2 hStart2,
      initAndStartImpl_ok svc Services ctx (Tracking.fresh w) hInit hStart]
    simp [Tracking.fresh]
  refine ⟨hi, hs, ?_, ?_, ?_⟩
  · rw [hi, List.length_append]
    omega
  · rw [hs, List.length_append]
    omega
  · intro s
    rw [h3, stopAndFinitImpl_eq, List.drop_left, hi, hs]
    simp only [made_append, made_callsOf_same, made_callsOf_other Hook.Stop Hook.Finit (by decide),
      made_callsOf_other Hook.Finit Hook.Stop (by decide), count_stopOrder, List.count_reverse,
      List.count_append]
    omega

/-- Witness of C19 on TestBasicUsage with InitAndStart called twice. -/
theorem initAndStart_twice_records_twice_witness :
    (runOps myServiceImpl [Op.InitAndStart [1, 2] [], Op.InitAndStart [1, 2] []]
        (Tracking.fresh (testHeap false false))).inited = [1, 2] ++ [1, 2] ∧
    (runOps myServiceImpl [Op.InitAndStart [1, 2] [], Op.InitAndStart [1, 2] []]
        (Tracking.fresh (testHeap false false))).started = [1, 2] ++ [1, 2] ∧
    made Hook.Stop 1
        ((runOps myServiceImpl [Op.InitAndStart [1, 2] [], Op.InitAndStart [1, 2] [],
            Op.StopAndFinit [] []] (Tracking.fresh (testHeap false false))).calls.drop
          (runOps myServiceImpl [Op.InitAndStart [1, 2] [], Op.InitAndStart [1, 2] []]
            (Tracking.fresh (testHeap false false))).calls.length) = 2 * [1, 2].count 1 :=
  have h := initAndStart_twice_records_twice myServiceImpl [1, 2] [] [] [] []
    (testHeap false false) (by decide) (by decide) (by decide) (by decide)
  ⟨h.1, h.2.1, (h.2.2.2.2 1).1⟩

/-- C11: over every finite sequence of InitAndStart and StopAndFinit calls
made from the empty tracking lists, and for every service, at every point of
the call log the number of Stop calls on the service is at most the number of
its successful Starts so far and the number of Finit calls at most the number
of its successful Inits so far; in particular every Stop call comes after a
successful Start of the same service and every Finit call after a successful
Init of it. The successes are those of the logged calls themselves, the memory
of the services being at all times the one the logged calls produce. -/
theorem stop_and_finit_never_exceed_successes {S Ctx Err W : Type} [DecidableEq S]
    (svc : IService S Ctx Err W) (ops : List (Op S Ctx)) (w : W) :
    (runOps svc ops (Tracking.fresh w)).world
      = replayWorld svc (runOps svc ops (Tracking.fresh w)).calls w ∧
    (∀ n s,
      made Hook.Stop s ((runOps svc ops (Tracking.fresh w)).calls.take n)
        ≤ succeeded svc Hook.Start s ((runOps svc ops (Tracking.fresh w)).calls.take n) w ∧
      made Hook.Finit s ((runOps svc ops (Tracking.fresh w)).calls.take n)
        ≤ succeeded svc Hook.Init s ((runOps svc ops (Tracking.fresh w)).calls.take n) w) ∧
    (∀ i e, (runOps svc ops (Tracking.fresh w)).calls[i]? = some e →
      (e.hook = Hook.Stop →
        1 ≤ succeeded svc Hook.Start e.service
          ((runOps svc ops (Tracking.fresh w)).calls.take i) w) ∧
      (e.hook = Hook.Finit →
        1 ≤ succeeded svc Hook.Init e.service
          ((runOps svc ops (Tracking.fresh w)).calls.take i) w)) := by
  have hb := Balanced_runOps svc w ops (Tracking.fresh w) (Balanced_fresh svc w)
  refine ⟨hb.world_eq, hb.safe, ?_⟩
  intro i e hie
  have hsafe := hb.safe (i + 1) e.service
  rw [List.take_succ, hie, Option.toList_some] at hsafe
  simp only [made_append, succeeded_append] at hsafe
  constructor
  · intro hh
    have h1 : made Hook.Stop e.service [e] = 1 := by simp [made, hh]
    have h2 : succeeded svc Hook.Start e.service [e]
        (replayWorld svc ((runOps svc ops (Tracking.fresh w)).calls.take i) w) = 0 :=
      succeeded_eq_zero svc Hook.Start e.service [e] _
        (fun c hc => by rw [List.mem_singleton.mp hc, hh]; decide)
    have := hsafe.1
    omega
  · intro hh
    have h1 : made Hook.Finit e.service [e] = 1 := by simp [made, hh]
    have h2 : succeeded svc Hook.Init e.service [e]
        (replayWorld svc ((runOps svc ops (Tracking.fresh w)).calls.take i) w) = 0 :=
      succeeded_eq_zero svc Hook.Init e.service [e] _
        (fun c hc => by rw [List.mem_singleton.mp hc, hh]; decide)
    have := hsafe.2
    omega

/-- C13: for a list of distinct services built like the test's `myService`,
whatever the Failinit and Failstart flags, the initial States, the context and
the order of the Stop calls, InitAndStart followed by StopAndFinit from empty
tracking lists returns the State of every service to the value it had before
InitAndStart; and no service is stopped more than once, so that no two Stop
goroutines work on the same struct. -/
theorem myService_lifecycle_round_trip (Services : List Nat) (sched : List Nat)
    (ctx : Context String Bool) (h : Heap) (p : Nat) (hDistinct : Services.Nodup) :
    ((initAndStartThenStopAndFinit myServiceImpl Services sched ctx h).world p).State
      = (h p).State ∧
    made Hook.Stop p (initAndStartThenStopAndFinit myServiceImpl Services sched ctx h).calls
      ≤ 1 := by
  have hb : Balanced myServiceImpl h
      (initAndStartThenStopAndFinit myServiceImpl Services sched ctx h) :=
    Balanced_stopAndFinitImpl myServiceImpl h sched _ _
      (Balanced_initAndStartImpl myServiceImpl h Services ctx _ (Balanced_fresh myServiceImpl h))
  have hs : (initAndStartThenStopAndFinit myServiceImpl Services sched ctx h).started = [] := by
    unfold initAndStartThenStopAndFinit
    rw [stopAndFinitImpl_eq]
  have hi : (initAndStartThenStopAndFinit myServiceImpl Services sched ctx h).inited = [] := by
    unfold initAndStartThenStopAndFinit
    rw [stopAndFinitImpl_eq]
  constructor
  · have h1 := hb.stops p
    have h2 := hb.finits p
    rw [hs] at h1
    rw [hi] at h2
    have h3 := myService_State_replay
      (initAndStartThenStopAndFinit myServiceImpl Services sched ctx h).calls h p
    rw [hb.world_eq]
    simp only [List.count_nil, Nat.add_zero] at h1 h2
    omega
  · rw [made_Stop_lifecycle]
    exact ((initAndStartImpl_started_sublist myServiceImpl Services ctx h).count_le p).trans
      (List.nodup_iff_count_le_one.mp hDistinct p)

/-- Witness of C13 on TestFailedStart: Service1 and Service2 are distinct,
Service2 fails Start, and Service1 is back at its State of before. -/
theorem myService_lifecycle_round_trip_witness :
    ((initAndStartThenStopAndFinit myServiceImpl [1, 2] [] [] (testHeap false true)).world
        1).State = (testHeap false true 1).State ∧
    made Hook.Stop 1
        (initAndStartThenStopAndFinit myServiceImpl [1, 2] [] [] (testHeap false true)).calls
      ≤ 1 :=
  myService_lifecycle_round_trip [1, 2] [] [] (testHeap false true) 1 (by decide)

/-- C15: in a registry built by any sequence of declarations after Reset, for
every singular requirement registered with Require that no declared provision
matches, ResolveAll returns exactly one error about that requirement's slot,
an EImplementationNotProvided, and leaves the content of the slot as it was
(nil stays nil). -/
theorem resolveAll_requirement_without_provision {Ty Val : Type} [DecidableEq Ty]
    (ds : List (godif.Decl Ty Val)) (slots : godif.Slots Val) (r : godif.Requirement Ty)
    (hr : r ∈ (godif.declareAll ds).requirements) (hs : r.collection = false)
    (hm : godif.matching (godif.declareAll ds) r = []) :
    ((godif.ResolveAll (godif.declareAll ds) slots).1.filter fun e => e.concerns r.slot)
      = [godif.Error.EImplementationNotProvided r.slot] ∧
    (godif.ResolveAll (godif.declareAll ds) slots).2.single r.slot = slots.single r.slot ∧
    (slots.single r.slot = none →
      (godif.ResolveAll (godif.declareAll ds) slots).2.single r.slot = none) := by
  have hn := godif_declareAll_nodup ds
  have hrs : r ∈ godif.singular (godif.declareAll ds) := by
    unfold godif.singular
    exact List.mem_filter.mpr ⟨hr, by simp [hs]⟩
  have hnc := godif_unprovided_not_candidate (godif.declareAll ds) r hn hrs hm
  have hnb : r.slot ∉ godif.bindAll (godif.declareAll ds)
      ((godif.singular (godif.declareAll ds)).filterMap (godif.candidate (godif.declareAll ds)))
      ((godif.singular (godif.declareAll ds)).filterMap
        (godif.candidate (godif.declareAll ds))).length [] :=
    fun h => hnc (godif_bindAll_subset _ _ _ [] (fun _ hx => by simp at hx) _ h)
  have hslot : (godif.ResolveAll (godif.declareAll ds) slots).2.single r.slot
      = slots.single r.slot := by
    simp only [godif.ResolveAll]
    rw [if_neg hnb]
  refine ⟨?_, hslot, fun h => hslot.trans h⟩
  have hstep2 : ((godif.singular (godif.declareAll ds)).filterMap
      (godif.singularError (godif.declareAll ds))).filter (fun e => e.concerns r.slot)
      = [godif.Error.EImplementationNotProvided r.slot] := by
    apply filter_filterMap_singleton godif.Requirement.slot _ _ _ r _
      (godif_singular_nodup _ hn) hrs
    · simp [godif.singularError, hm]
    · simp [godif.Error.concerns]
    · intro q _ b hq hb
      exact godif_singularError_slot _ q b r.slot hq hb
  simp only [godif.ResolveAll, List.filter_append, hstep2]
  split
  · simp
  · rw [godif_filter_cyclic _ _ (fun h => hnc (List.mem_of_mem_filter h))]
    simp

/-- Witness of C15 on TestFuncErrorOnNoImplementation: after Reset, one
`Require(&injectedFunc)` and no provision, ResolveAll returns the single error
EImplementationNotProvided and `injectedFunc` is still nil. -/
theorem resolveAll_requirement_without_provision_witness :
    ((godif.ResolveAll
        (godif.declareAll
          [(godif.Decl.Require { slot := 0, ty := "func(int, int) int", collection := false } :
            godif.Decl String Nat)])
        { single := fun _ => none, collection := fun _ => [] }).1.filter
      fun e => e.concerns 0) = [godif.Error.EImplementationNotProvided 0] ∧
    (godif.ResolveAll
        (godif.declareAll
          [(godif.Decl.Require { slot := 0, ty := "func(int, int) int", collection := false } :
            godif.Decl String Nat)])
        { single := fun _ => none, collection := fun _ => [] }).1
      = [godif.Error.EImplementationNotProvided 0] ∧
    (godif.ResolveAll
        (godif.declareAll
          [(godif.Decl.Require { slot := 0, ty := "func(int, int) int", collection := false } :
            godif.Decl String Nat)])
        { single := fun _ => none, collection := fun _ => [] }).2.single 0 = none :=
  have h := resolveAll_requirement_without_provision
    [(godif.Decl.Require { slot := 0, ty := "func(int, int) int", collection := false } :
      godif.Decl String Nat)]
    { single := fun _ => none, collection := fun _ => [] }
    { slot := 0, ty := "func(int, int) int", collection := false }
    (by simp [godif.declareAll, godif.declare, godif.Require, godif.Reset]) rfl
    (by simp [godif.declareAll, godif.declare, godif.Require, godif.Reset, godif.matching])
  ⟨h.1, by decide, h.2.2 rfl⟩

/-- C16: when the Starts of the services before `sk` succeed and the Start of
`sk` panics with payload `data`, Run returns an EPanic error whose PanicData
is `data` and whose PanicedService is `sk`; Start has been invoked on the
services before `sk` and on `sk`, in order, and on no later service; the only
other calls of Run are the Stops of the services that had started. -/
theorem run_returns_EPanic_of_paniced_start {S Ctx Err P W : Type}
    (svc : services.IService S Ctx Err P W) (pre : List S) (sk : S) (post : List S)
    (sched : List Nat) (ctx : Ctx) (verbose : Bool) (w : W) (data : P)
    (hpre : services.StartsSucceed svc pre ctx w)
    (hk : (svc.Start sk (services.afterStarts svc pre ctx w).1
            (services.afterStarts svc pre ctx w).2).1 = services.Ending.panics data) :
    (services.Run svc (pre ++ sk :: post) sched ctx verbose w).err
      = some (services.Error.EPanic data sk) ∧
    (((services.Run svc (pre ++ sk :: post) sched ctx verbose w).calls.filter
        fun e => decide (e.hook = Hook.Start)).map Call.service) = pre ++ [sk] ∧
    (services.Run svc (pre ++ sk :: post) sched ctx verbose w).calls.map Call.sig
      = ((pre ++ [sk]).map fun s => (Hook.Start, s))
          ++ ((stopOrder sched pre).map fun s => (Hook.Stop, s)) := by
  have hcalls : (services.Run svc (pre ++ sk :: post) sched ctx verbose w).calls
      = services.startCalls svc (pre ++ [sk]) ctx w
          ++ callsOf Hook.Stop (services.afterStarts svc pre ctx w).1 (stopOrder sched pre) := by
    unfold services.Run
    simp only [services_Start_panic svc pre sk post ctx verbose [] w data hpre hk,
      services_Stop_eq, List.nil_append]
  have hsig : (services.Run svc (pre ++ sk :: post) sched ctx verbose w).calls.map Call.sig
      = ((pre ++ [sk]).map fun s => (Hook.Start, s))
          ++ ((stopOrder sched pre).map fun s => (Hook.Stop, s)) := by
    rw [hcalls, List.map_append, services_startCalls_sig, callsOf_sig]
  refine ⟨?_, ?_, hsig⟩
  · unfold services.Run
    simp only [services_Start_panic svc pre sk post ctx verbose [] w data hpre hk]
  · have hfm : ∀ l : List (Call S Ctx),
        (l.filter fun e => decide (e.hook = Hook.Start)).map Call.service
          = ((l.map Call.sig).filter fun p => decide (p.1 = Hook.Start)).map Prod.snd := by
      intro l
      induction l with
      | nil => rfl
      | cons e l ih =>
        by_cases he : e.hook = Hook.Start
        · simp [List.filter_cons, he, Call.sig, ih]
        · simp [List.filter_cons, he, Call.sig, ih]
    rw [hfm, hsig, List.filter_append]
    simp [List.filter_map, Function.comp_def]

/-- Witness of C16 on TestPanicedStart: Service2 of three services panics with
"somethingwrong"; Service3 is never invoked and Service1 is stopped again. -/
theorem run_returns_EPanic_of_paniced_start_witness :
    (services.Run services.MyServiceImpl ([1] ++ 2 :: [3]) [] [] true services.panicWorld).err
      = some (services.Error.EPanic "somethingwrong" 2) ∧
    (((services.Run services.MyServiceImpl ([1] ++ 2 :: [3]) [] [] true
        services.panicWorld).calls.filter
        fun e => decide (e.hook = Hook.Start)).map Call.service) = [1] ++ [2] ∧
    ((services.Run services.MyServiceImpl ([1] ++ 2 :: [3]) [] [] true
        services.panicWorld).world.heap 3).StartInvoked = false ∧
    ((services.Run services.MyServiceImpl ([1] ++ 2 :: [3]) [] [] true
        services.panicWorld).world.heap 1).State = 0 :=
  have h := run_returns_EPanic_of_paniced_start services.MyServiceImpl [1] 2 [3] [] [] true
    services.panicWorld "somethingwrong" (by decide) (by decide)
  ⟨h.1, h.2.1, by decide, by decide⟩

/-- C17: when the Start of every service succeeds, the free function Start
returns a nil error, a started list equal to the input list (same length, same
order) and the input context threaded through the Starts in list order; hence,
the services adding keys to the context they receive and discarding none, the
final context holds every key of the initial context and every key held by the
context that any service's Start returned. -/
theorem start_returns_all_services_and_keys {S Ctx Err P W K V : Type}
    (svc : services.IService S Ctx Err P W) (Value : Ctx → K → Option V)
    (servicesList : List S) (ctx : Ctx) (verbose : Bool) (w : W)
    (hStart : services.StartsSucceed svc servicesList ctx w) :
    (services.Start svc ctx servicesList verbose [] w).err = none ∧
    (services.Start svc ctx servicesList verbose [] w).startedServices = servicesList ∧
    (services.Start svc ctx servicesList verbose [] w).startedServices.length
      = servicesList.length ∧
    (services.Start svc ctx servicesList verbose [] w).ctx
      = (services.afterStarts svc servicesList ctx w).1 ∧
    (services.StartsKeepKeys svc Value servicesList ctx w →
      (∀ key, Value ctx key ≠ none →
        Value (services.Start svc ctx servicesList verbose [] w).ctx key ≠ none) ∧
      (∀ xs s ys, servicesList = xs ++ s :: ys →
        ∀ key, Value (services.afterStarts svc (xs ++ [s]) ctx w).1 key ≠ none →
          Value (services.Start svc ctx servicesList verbose [] w).ctx key ≠ none)) := by
  rw [services_Start_ok svc servicesList ctx verbose [] w hStart]
  refine ⟨rfl, rfl, rfl, rfl, ?_⟩
  intro hkeep
  refine ⟨fun key hkey => services_afterStarts_keeps svc Value servicesList ctx w hkeep key hkey,
    ?_⟩
  intro xs s ys hsplit key hkey
  subst hsplit
  exact services_afterStarts_keeps_service_keys svc Value xs s ys ctx w hkeep key hkey

/-- Witness of C17 on TestContextStartStopOrder with three services: the final
context keeps "root" and holds the value i * 1000 under "Service" i. -/
theorem start_returns_all_services_and_keys_witness :
    (services.Start services.MyServiceImpl [("root", 7)] [0, 1, 2] false []
        services.orderWorld).err = none ∧
    (services.Start services.MyServiceImpl [("root", 7)] [0, 1, 2] false []
        services.orderWorld).startedServices = [0, 1, 2] ∧
    (services.Start services.MyServiceImpl [("root", 7)] [0, 1, 2] false []
        services.orderWorld).ctx
      = [("Service2", 2000), ("Service1", 1000), ("Service0", 0), ("root", 7)] ∧
    Context.Value (services.Start services.MyServiceImpl [("root", 7)] [0, 1, 2] false []
        services.orderWorld).ctx "root" ≠ none ∧
    Context.Value (services.Start services.MyServiceImpl [("root", 7)] [0, 1, 2] false []
        services.orderWorld).ctx "Service1" ≠ none :=
  have h := start_returns_all_services_and_keys services.MyServiceImpl Context.Value [0, 1, 2]
    [("root", 7)] false services.orderWorld (by decide)
  have hk := h.2.2.2.2 (MyService_StartsKeepKeys [0, 1, 2] [("root", 7)] services.orderWorld)
  ⟨h.1, h.2.1, h.2.2.2.1.trans (by decide), hk.1 "root" (by decide),
    hk.2 [0] 1 [2] rfl "Service1" (by decide)⟩

end Godif
